import Mathlib

/-!
Verification of the PCI device-assignment subsystem of qubes-core-admin.

This file gives a shallow embedding of the PCI topology codec
(`sbdf_to_path`, `path_to_sbdf`, `is_pci_path` in qubes/utils.py), the PCI
class database (`load_pci_classes`, `pcidev_class` in qubes/ext/pci.py), the
device metadata loader (`PCIDevice._load_desc`), the attach/detach event
handlers of `PCIDeviceExtension`, and the persisted-configuration port-id
migration step of `load_extras` (qubes/vm/__init__.py), together with proofs
of the behavioural properties claimed for them.

Python strings are modelled as lists of characters (`PyStr`); the sysfs
device tree consulted by the codec is modelled as an explicit record of
directory listings, symlink targets and attribute-file contents; Python
exceptions are modelled with an `Except` result type.  Helper functions
(`pyStrip`, `splitOnChar`, `pyJoin`, `pyPartition`, `pyInt`, `normpathL`,
...) implement the semantics of the corresponding Python library
operations on the value domain used by the code.
-/

set_option maxHeartbeats 1000000

/-- Python strings, modelled as lists of characters. -/
abbrev PyStr := List Char

/-- Python exceptions raised by the modelled code. -/
inductive PyErr where
  | valueError
  | assertionError
  | fileNotFoundError
deriving DecidableEq

/-- Whitespace characters stripped by Python str.strip (ASCII subset). -/
def isPySpace (c : Char) : Bool :=
  c = ' ' || c = '\t' || c = '\n' || c = '\x0b' || c = '\x0c' || c = '\r'

/-- Python str.strip with no arguments: drop whitespace from both ends. -/
def pyStrip (s : PyStr) : PyStr :=
  ((s.dropWhile isPySpace).reverse.dropWhile isPySpace).reverse

/-- Python str.rstrip with no arguments: drop trailing whitespace. -/
def pyRstrip (s : PyStr) : PyStr :=
  (s.reverse.dropWhile isPySpace).reverse

/-- Python str.split with a single-character separator: splits on every
occurrence, keeping empty fields, and returns one (possibly empty) field
even for the empty string. -/
def splitOnChar (sep : Char) : PyStr → List PyStr
  | [] => [[]]
  | c :: rest =>
    if c = sep then [] :: splitOnChar sep rest
    else
      match splitOnChar sep rest with
      | [] => [[c]]
      | h :: t => (c :: h) :: t

/-- Python sep.join over a list of strings. -/
def pyJoin (sep : PyStr) : List PyStr → PyStr
  | [] => []
  | [x] => x
  | x :: xs => x ++ sep ++ pyJoin sep xs

/-- Python str.partition: split at the first occurrence of sep, returning
(before, sep, after); if sep does not occur, (whole, empty, empty). -/
def pyPartition (sep : PyStr) : PyStr → PyStr × PyStr × PyStr
  | [] => ([], [], [])
  | c :: rest =>
    if sep.isPrefixOf (c :: rest) then ([], sep, (c :: rest).drop sep.length)
    else
      match pyPartition sep rest with
      | (a, m, b) => (c :: a, m, b)

/-- Association-list lookup with decidable key equality (models a Python
dict read and the resolution of a sysfs pathname). -/
def alookup (k : PyStr) : List (PyStr × α) → Option α
  | [] => none
  | (k2, v) :: t => if k2 = k then some v else alookup k t

/-- Insert or overwrite a key in an association list (models a Python dict
assignment: an existing key is updated in place, a new key is appended). -/
def dictInsert (k v : PyStr) : List (PyStr × PyStr) → List (PyStr × PyStr)
  | [] => [(k, v)]
  | (k2, v2) :: t => if k2 = k then (k, v) :: t else (k2, v2) :: dictInsert k v t

/-- Value of one lowercase hexadecimal digit, i.e. the character class
[0-9a-f] used by the regular expressions in qubes/utils.py. -/
def hexValDigit? (c : Char) : Option Nat :=
  match c with
  | 'f' => some 15
  | 'e' => some 14
  | 'd' => some 13
  | 'c' => some 12
  | 'b' => some 11
  | 'a' => some 10
  | '9' => some 9
  | '8' => some 8
  | '7' => some 7
  | '6' => some 6
  | '5' => some 5
  | '4' => some 4
  | '3' => some 3
  | '2' => some 2
  | '1' => some 1
  | '0' => some 0
  | _ => none

/-- Lowercase hexadecimal digit for a value below 16 (as produced by the
Python format specifier x). -/
def hexDigitChar (n : Nat) : Char :=
  match n with
  | 0 => '0'
  | 1 => '1'
  | 2 => '2'
  | 3 => '3'
  | 4 => '4'
  | 5 => '5'
  | 6 => '6'
  | 7 => '7'
  | 8 => '8'
  | 9 => '9'
  | 10 => 'a'
  | 11 => 'b'
  | 12 => 'c'
  | 13 => 'd'
  | 14 => 'e'
  | 15 => 'f'
  | _ => '0'

/-- Value of a hexadecimal digit string, i.e. Python int(s, 16) on a string
already validated by the [0-9a-f]+ character class. -/
def hexValL (l : PyStr) : Nat :=
  l.foldl (fun a c => 16 * a + (hexValDigit? c).getD 0) 0

/-- Minimal lowercase hexadecimal digits of n, most significant first,
computed with explicit fuel so that the definition is structurally
recursive.  Empty for n = 0 (callers add the final zero digit). -/
def natToHexAux : Nat → Nat → PyStr
  | 0, _ => []
  | _, 0 => []
  | fuel + 1, n => natToHexAux fuel (n / 16) ++ [hexDigitChar (n % 16)]

/-- Minimal lowercase hexadecimal representation of n, as produced by the
Python format specifier x. -/
def natToHex (n : Nat) : PyStr :=
  if n = 0 then ['0'] else natToHexAux (n + 1) n

/-- Left-pad a digit string with zeros to a given width. -/
def padZero (w : Nat) (l : PyStr) : PyStr :=
  List.replicate (w - l.length) '0' ++ l

/-- Python format(n, 0wx) for a natural number: lowercase hexadecimal,
zero-padded to width w. -/
def fmtHexPad (w n : Nat) : PyStr :=
  padZero w (natToHex n)

/-- Python format(i, 0wx) for an integer: a negative value is rendered as a
minus sign followed by the digits of its absolute value, the zero padding
counting the sign toward the total width. -/
def intToHexFmt (w : Nat) (i : Int) : PyStr :=
  if i < 0 then '-' :: padZero (w - 1) (natToHex i.natAbs) else fmtHexPad w i.toNat

/-- Value of one decimal digit. -/
def decDigit? (c : Char) : Option Nat :=
  match c with
  | '9' => some 9
  | '8' => some 8
  | '7' => some 7
  | '6' => some 6
  | '5' => some 5
  | '4' => some 4
  | '3' => some 3
  | '2' => some 2
  | '1' => some 1
  | '0' => some 0
  | _ => none

/-- Value of a decimal digit string. -/
def decValL (l : PyStr) : Nat :=
  l.foldl (fun a c => 10 * a + (decDigit? c).getD 0) 0

/-- Python int(s) on a decimal string: surrounding whitespace is ignored, an
optional sign is accepted, and anything else fails with ValueError (modelled
as none). -/
def pyInt (s : PyStr) : Option Int :=
  match pyStrip s with
  | [] => none
  | '-' :: ds =>
    if ds ≠ [] ∧ ds.all (fun c => (decDigit? c).isSome) then
      some (-(decValL ds : Int))
    else none
  | '+' :: ds =>
    if ds ≠ [] ∧ ds.all (fun c => (decDigit? c).isSome) then
      some ((decValL ds : Int))
    else none
  | ds =>
    if ds.all (fun c => (decDigit? c).isSome) then
      some ((decValL ds : Int))
    else none

/-- Python os.path.join for the two-argument form used by the codec. -/
def joinPathL (a b : PyStr) : PyStr :=
  if b.head? = some '/' then b
  else if a = [] then b
  else if a.getLast? = some '/' then a ++ b
  else a ++ '/' :: b

/-- Python os.path.normpath (POSIX flavour): collapse repeated separators
and resolve . and .. components lexically. -/
def normpathL (p : PyStr) : PyStr :=
  if p = [] then ['.']
  else
    let initialSlashes : Nat :=
      if p.head? = some '/' then
        if ['/', '/'].isPrefixOf p ∧ ¬ ['/', '/', '/'].isPrefixOf p then 2 else 1
      else 0
    let comps := splitOnChar '/' p
    let newComps := comps.foldl
      (fun acc comp =>
        if comp = [] ∨ comp = ['.'] then acc
        else if comp ≠ ['.', '.'] ∨ (initialSlashes = 0 ∧ acc = [])
              ∨ (acc.getLast? = some ['.', '.']) then acc ++ [comp]
        else if acc ≠ [] then acc.dropLast
        else acc)
      ([] : List PyStr)
    let joined := List.replicate initialSlashes '/' ++ pyJoin ['/'] newComps
    if joined = [] then ['.'] else joined

/-! ## The sysfs device tree consulted by the topology codec -/

/-- The slice of the host sysfs filesystem read by the topology codec:
the entries of /sys/devices (whose pci-prefixed members name the root
buses), the symlink targets of /sys/bus/pci/devices/SBDF, and the contents
of the per-device secondary_bus_number attribute files (absent for
non-bridge devices, modelled by a missing key). -/
structure Sysfs where
  devicesDir : List PyStr
  devLinks : List (PyStr × PyStr)
  secondaryBus : List (PyStr × PyStr)

/-- Root buses of the tree: names of pci-prefixed entries of /sys/devices
with the pci prefix removed, as computed at the top of sbdf_to_path. -/
def rootBusesOf (fs : Sysfs) : List PyStr :=
  fs.devicesDir.filterMap
    (fun d => if ['p', 'c', 'i'].isPrefixOf d then some (d.drop 3) else none)

/-- Named groups of the device-identifier regular expression of
sbdf_to_path: an optional pci prefix, an optional four-digit segment, then
two-digit bus, two-digit device and one-digit function, all lowercase
hexadecimal, with the separators of both the libvirt and the hypervisor
textual forms accepted. -/
structure SbdfMatch where
  segment : Option PyStr
  bus : PyStr
  device : PyStr
  function : PyStr
deriving DecidableEq

/-- Match the fixed-width bus-device-function tail of the sbdf regular
expression: two hex digits, a separator in [_:], two hex digits, a
separator in [._], one hex digit, end of string. -/
def matchBdfTail (s : PyStr) : Option (PyStr × PyStr × PyStr) :=
  match s with
  | [b1, b2, s1, d1, d2, s2, f] =>
    if (hexValDigit? b1).isSome ∧ (hexValDigit? b2).isSome
        ∧ (s1 = '_' ∨ s1 = ':')
        ∧ (hexValDigit? d1).isSome ∧ (hexValDigit? d2).isSome
        ∧ (s2 = '.' ∨ s2 = '_')
        ∧ (hexValDigit? f).isSome then
      some ([b1, b2], [d1, d2], [f])
    else none
  | _ => none

/-- Core of the device-identifier regular expression after the optional
pci prefix: an optional four-digit segment group followed by the
bus-device-function tail, with the backtracking between the
segment-present and segment-absent alternatives of the optional group. -/
def sbdfCore (rest : PyStr) : Option SbdfMatch :=
  match rest with
  | s1 :: s2 :: s3 :: s4 :: sep :: tail =>
    if (hexValDigit? s1).isSome ∧ (hexValDigit? s2).isSome
        ∧ (hexValDigit? s3).isSome ∧ (hexValDigit? s4).isSome
        ∧ (sep = '_' ∨ sep = ':') then
      match matchBdfTail tail with
      | some (b, d, f) => some ⟨some [s1, s2, s3, s4], b, d, f⟩
      | none =>
        match matchBdfTail rest with
        | some (b, d, f) => some ⟨none, b, d, f⟩
        | none => none
    else
      match matchBdfTail rest with
      | some (b, d, f) => some ⟨none, b, d, f⟩
      | none => none
  | _ =>
    match matchBdfTail rest with
    | some (b, d, f) => some ⟨none, b, d, f⟩
    | none => none

/-- Full match of the device-identifier regular expression of sbdf_to_path:
an optional literal pci prefix, then the segment-and-tail core. -/
def sbdfRegexMatch (device_id : PyStr) : Option SbdfMatch :=
  sbdfCore (if ['p', 'c', 'i', '_'].isPrefixOf device_id
            then device_id.drop 4 else device_id)

/-- The bridge-walk loop of sbdf_to_path: one iteration per component of
the sysfs ancestor path, subtracting the bus offset learned from the
previous component's secondary_bus_number attribute. -/
def sbdfPathLoop (fs : Sysfs) : List PyStr → Int → List PyStr → Except PyErr (List PyStr)
  | [], _, acc => .ok acc
  | part :: restParts, bus_offset, acc =>
    if bus_offset = -1 then .error .assertionError
    else
      match sbdfRegexMatch part with
      | none => .error .valueError
      | some bm =>
        if (hexValL bm.bus : Int) < bus_offset then .error .assertionError
        else
          let bus_num : Int := (hexValL bm.bus : Int) - bus_offset
          let bridge_str := intToHexFmt 2 bus_num ++ '_' :: bm.device ++ '.' :: bm.function
          match alookup part fs.secondaryBus with
          | some content =>
            match pyInt content with
            | some n => sbdfPathLoop fs restParts n (acc ++ [bridge_str])
            | none => .error .valueError
          | none => sbdfPathLoop fs restParts (-1) (acc ++ [bridge_str])

/-- qubes.utils.sbdf_to_path: convert a textual PCI device identifier to a
renumbering-resistant topology path by walking the sysfs bridge chain.
Returns none when the device is absent from the live tree, raises
ValueError on a malformed identifier or bridge component, and
AssertionError when an internal consistency assert fails. -/
def sbdf_to_path (fs : Sysfs) (device_id : PyStr) : Except PyErr (Option PyStr) :=
  let root_buses := rootBusesOf fs
  match sbdfRegexMatch device_id with
  | none => .error .valueError
  | some m =>
    let segment := m.segment.getD ['0', '0', '0', '0']
    if (segment ++ ':' :: m.bus) ∈ root_buses then
      .ok (some ((if segment ≠ ['0', '0', '0', '0'] then segment ++ ['_'] else [])
        ++ m.bus ++ '_' :: m.device ++ '.' :: m.function))
    else
      let sbdf := segment ++ ':' :: m.bus ++ ':' :: m.device ++ '.' :: m.function
      match alookup sbdf fs.devLinks with
      | none => .ok none
      | some sysfs_path =>
        match pyPartition ('/' :: 'p' :: 'c' :: 'i' :: segment ++ [':']) sysfs_path with
        | (rel_links, _, path0) =>
          if normpathL (joinPathL "/sys/bus/pci/devices".data rel_links)
              ≠ normpathL "/sys/devices".data then .error .assertionError
          else
            match sbdfPathLoop fs (splitOnChar '/' (path0.drop 3)) 0 [] with
            | .error e => .error e
            | .ok result_list =>
              if segment = ['0', '0', '0', '0'] then
                .ok (some (pyJoin ['-'] result_list))
              else
                .ok (some (segment ++ '_' :: pyJoin ['-'] result_list))

/-- Maximal prefix of lowercase hexadecimal digits of a string, with the
remainder (the greedy matching of [0-9a-f]+ in path_to_sbdf). -/
def takeHexRun : PyStr → PyStr × PyStr
  | [] => ([], [])
  | c :: rest =>
    if (hexValDigit? c).isSome then
      match takeHexRun rest with
      | (run, left) => (c :: run, left)
    else ([], c :: rest)

/-- Match of the per-hop regular expression of path_to_sbdf: a nonempty hex
run, a separator in [_:], a nonempty hex run, a separator in [._], a
nonempty hex run, end of string. -/
def matchHopRegex (s : PyStr) : Option (PyStr × PyStr × PyStr) :=
  match takeHexRun s with
  | (b, r1) =>
    if b = [] then none
    else
      match r1 with
      | c1 :: r2 =>
        if c1 = '_' ∨ c1 = ':' then
          match takeHexRun r2 with
          | (d, r3) =>
            if d = [] then none
            else
              match r3 with
              | c2 :: r4 =>
                if c2 = '.' ∨ c2 = '_' then
                  match takeHexRun r4 with
                  | (f, r5) => if f ≠ [] ∧ r5 = [] then some (b, d, f) else none
                else none
              | [] => none
        else none
      | [] => none

/-- Match of the segment-prefix regular expression of path_to_sbdf: four
hex digits, a separator in [_:], then any remainder not containing a
newline (the dot of the pattern does not match newlines). -/
def matchSegmentRe (s : PyStr) : Option (PyStr × PyStr) :=
  match s with
  | s1 :: s2 :: s3 :: s4 :: sep :: rest =>
    if (hexValDigit? s1).isSome ∧ (hexValDigit? s2).isSome
        ∧ (hexValDigit? s3).isSome ∧ (hexValDigit? s4).isSome
        ∧ (sep = '_' ∨ sep = ':') ∧ '\n' ∉ rest then
      some ([s1, s2, s3, s4], rest)
    else none
  | _ => none

/-- The forward-walk loop of path_to_sbdf: one iteration per dash-joined
hop, adding the accumulated bus offset, reconstructing the live SBDF, and
reading its secondary_bus_number to obtain the next offset. -/
def pathSbdfLoop (fs : Sysfs) : List PyStr → PyStr → Int → PyStr → Except PyErr PyStr
  | [], _, _, current_dev => .ok current_dev
  | part :: rest, segment, bus_offset, _ =>
    if bus_offset = -1 then .error .assertionError
    else
      let sp : PyStr × PyStr :=
        if bus_offset = 0 then
          match matchSegmentRe part with
          | some (seg, r) => (seg, r)
          | none => (segment, part)
        else (segment, part)
      match sp with
      | (segment, part) =>
        match matchHopRegex part with
        | none => .error .valueError
        | some (b, d, f) =>
          let bus_num : Int := (hexValL b : Int) + bus_offset
          let current_dev := segment ++ ':' :: intToHexFmt 2 bus_num ++ ':' :: d ++ '.' :: f
          match alookup current_dev fs.secondaryBus with
          | some content =>
            match pyInt content with
            | some n => pathSbdfLoop fs rest segment n current_dev
            | none => .error .valueError
          | none => pathSbdfLoop fs rest segment (-1) current_dev

/-- qubes.utils.path_to_sbdf: convert a topology path produced by
sbdf_to_path back to the live SBDF of the device, against the current
device tree. -/
def path_to_sbdf (fs : Sysfs) (path : PyStr) : Except PyErr PyStr :=
  pathSbdfLoop fs (splitOnChar '-' path) ['0', '0', '0', '0'] 0 []

/-- Star loop of the is_pci_path regular expression: zero or more
dash-prefixed hops, each of the fixed shape -hh_hh.h, ending exactly at
the end of the string. -/
def pathStarLoop : PyStr → Bool
  | [] => true
  | '-' :: b1 :: b2 :: '_' :: d1 :: d2 :: '.' :: f :: rest =>
    (hexValDigit? b1).isSome && (hexValDigit? b2).isSome
      && (hexValDigit? d1).isSome && (hexValDigit? d2).isSome
      && (hexValDigit? f).isSome && pathStarLoop rest
  | _ => false

/-- Tail of the is_pci_path regular expression after a root-bus
alternative: an underscore, a two-digit device, a dot, a one-digit
function, then the star loop. -/
def pathAfterRoot : PyStr → Bool
  | '_' :: d1 :: d2 :: '.' :: f :: rest =>
    (hexValDigit? d1).isSome && (hexValDigit? d2).isSome
      && (hexValDigit? f).isSome && pathStarLoop rest
  | _ => false

/-- qubes.utils.is_pci_path: recognize topology-path identifiers.  The
root-bus names of the live tree (colons replaced by underscores) are the
alternatives of the leading group; the regular expression alternation is
modelled as trying each root-bus name as a literal prefix, which agrees
with the Python regular expression because sysfs root-bus names contain no
metacharacters.  An empty alternative list yields the single empty
alternative, as an empty string join does in the Python source. -/
def is_pci_path (fs : Sysfs) (device_id : PyStr) : Bool :=
  let root_buses := (rootBusesOf fs).map
    (List.map (fun c => if c = ':' then '_' else c))
  let device_id :=
    if device_id.length > 2 ∧ device_id.get? 2 = some '_' then
      '0' :: '0' :: '0' :: '0' :: '_' :: device_id
    else device_id
  let alts := if root_buses = [] then [([] : PyStr)] else root_buses
  alts.any (fun r => r.isPrefixOf device_id && pathAfterRoot (device_id.drop r.length))

/-! ## PCI class database (qubes/ext/pci.py) -/

/-- Truthiness of a Python variable holding None or a string (None and the
empty string are falsy). -/
def truthyStr : Option PyStr → Bool
  | none => false
  | some s => s ≠ []

/-- Truthiness of the module-global pci_classes variable holding None or a
dict (None and the empty dict are falsy). -/
def truthyDict : Option (List (PyStr × PyStr)) → Bool
  | none => false
  | some d => d ≠ []

/-- Python str.split(sep, maxsplit) for a single-character separator: at
most maxsplit splits, the rest of the string kept as the final field. -/
def pySplitMax (sep : Char) (maxs : Nat) : PyStr → List PyStr
  | [] => [[]]
  | c :: rest =>
    if c = sep then
      match maxs with
      | 0 =>
        match pySplitMax sep 0 rest with
        | [] => [[c]]
        | h :: t => (c :: h) :: t
      | m + 1 => [] :: pySplitMax sep m rest
    else
      match pySplitMax sep maxs rest with
      | [] => [[c]]
      | h :: t => (c :: h) :: t

/-- Environment of the class lookup: the device class attribute read from
sysfs (none models an OSError caught by pcidev_class), and the lines of
/usr/share/hwdata/pci.ids (none models the file being absent, so that
opening it raises FileNotFoundError). -/
structure ClassEnv where
  sysfs_class : Option PyStr
  pci_ids : Option (List PyStr)

/-- Line loop of load_pci_classes, threading the current class and
subclass identifiers and the result dict.  A two-tab line is a programming
interface, a one-tab line is a subclass (recorded both with a generic 00
programming interface and verbatim), and a line starting with C and a
space is a class (recorded with 0000 and 00 suffixes, resetting the
subclass).  A malformed row makes the tuple unpacking of the Python source
raise ValueError. -/
def loadClassLoop : List PyStr → Option PyStr → Option PyStr →
    List (PyStr × PyStr) → Except PyErr (List (PyStr × PyStr))
  | [], _, _, acc => .ok acc
  | line0 :: rest, class_id, subclass_id, acc =>
    let line := pyRstrip line0
    if ['\t', '\t'].isPrefixOf line ∧ truthyStr class_id ∧ truthyStr subclass_id then
      match pySplitMax ' ' 2 (line.drop 2) with
      | [progif_id, _, class_name] =>
        loadClassLoop rest class_id subclass_id
          (dictInsert (class_id.getD [] ++ subclass_id.getD [] ++ progif_id)
            class_name acc)
      | _ => .error .valueError
    else if ['\t'].isPrefixOf line ∧ truthyStr class_id then
      match pySplitMax ' ' 2 (line.drop 1) with
      | [sub, _, class_name] =>
        loadClassLoop rest class_id (some sub)
          (dictInsert (class_id.getD [] ++ sub) class_name
            (dictInsert (class_id.getD [] ++ sub ++ ['0', '0']) class_name acc))
      | _ => .error .valueError
    else if ['C', ' '].isPrefixOf line then
      match pySplitMax ' ' 3 line with
      | [_, cid, _, class_name] =>
        loadClassLoop rest (some cid) none
          (dictInsert (cid ++ ['0', '0']) class_name
            (dictInsert (cid ++ ['0', '0', '0', '0']) class_name acc))
      | _ => .error .valueError
    else
      loadClassLoop rest class_id subclass_id acc

/-- qubes.ext.pci.load_pci_classes: parse /usr/share/hwdata/pci.ids into
the class-code dict.  If the file is absent, opening it raises
FileNotFoundError, which this function does not catch. -/
def load_pci_classes (env : ClassEnv) : Except PyErr (List (PyStr × PyStr)) :=
  match env.pci_ids with
  | none => .error .fileNotFoundError
  | some lines => loadClassLoop lines none none []

/-- qubes.ext.pci.pcidev_class: read the device class attribute (any
OSError yields unknown), fill the module-global class dict on first use by
calling load_pci_classes, strip an optional 0x prefix, and look up the
first four digits of the class code, ignoring the programming interface;
a missing key yields unknown.  Returns the value together with the new
state of the module-global dict. -/
def pcidev_class (pci_classes : Option (List (PyStr × PyStr))) (env : ClassEnv) :
    Except PyErr (PyStr × Option (List (PyStr × PyStr))) :=
  match env.sysfs_class with
  | none => .ok ("unknown".data, pci_classes)
  | some raw =>
    let class_id := pyStrip raw
    match (if truthyDict pci_classes then .ok (pci_classes.getD [])
           else load_pci_classes env : Except PyErr (List (PyStr × PyStr))) with
    | .error e => .error e
    | .ok d =>
      let class_id := if ['0', 'x'].isPrefixOf class_id then class_id.drop 2 else class_id
      match alookup (class_id.take 4) d with
      | some name => .ok (name, some d)
      | none => .ok ("unknown".data, some d)

/-! ## PCIDevice metadata loader (qubes/ext/pci.py) -/

/-- Fields of the XML node-device description consulted by _load_desc. -/
structure HostdevXml where
  vendor : String
  vendorId : String
  product : String
  productId : String
deriving DecidableEq

/-- Environment of the metadata loader: whether the backend domain is
running, and the result of the libvirt nodeDeviceLookupByName call (none
models a libvirt error being raised by the lookup). -/
structure LoadEnv where
  is_running : Bool
  nodeDevice : Option HostdevXml
deriving DecidableEq

/-- Lazily-cached metadata fields of a PCIDevice (None meaning not yet
loaded, exactly as in the Python object). -/
structure PCIDeviceState where
  vendorCache : Option String
  vendorIdCache : Option String
  productCache : Option String
  productIdCache : Option String
deriving DecidableEq

/-- The dict returned by _load_desc. -/
structure DescDict where
  vendor : String
  vendorID : String
  product : String
  productID : String
  manufacturer : String
  name : String
  serial : String
deriving DecidableEq

/-- The all-unknown default dict built at the top of _load_desc. -/
def defaultDesc : DescDict :=
  { vendor := "unknown", vendorID := "0000", product := "unknown",
    productID := "0000", manufacturer := "unknown", name := "unknown",
    serial := "unknown" }

/-- Raised libvirt errors and other exceptions of the orchestrator model. -/
inductive LvCode where
  | noNodeDevice
  | internalError
  | otherCode
deriving DecidableEq

/-- Exception kinds crossing the handlers of the PCI extension. -/
inductive Exc where
  | qubesException
  | calledProcessError
  | libvirtError (code : LvCode)
  | otherError
deriving DecidableEq

/-- qubes.ext.pci.PCIDevice._load_desc: if the backend domain is not
running, return the defaults without touching any cached field; otherwise
query libvirt (an error propagates with nothing written) and, on success,
write the four cache fields and return the queried values. -/
def _load_desc (st : PCIDeviceState) (env : LoadEnv) :
    Except Exc (DescDict × PCIDeviceState) :=
  if env.is_running = false then .ok (defaultDesc, st)
  else
    match env.nodeDevice with
    | none => .error (.libvirtError .otherCode)
    | some x =>
      .ok ({ defaultDesc with
               vendor := x.vendor
               vendorID := x.vendorId
               product := x.product
               productID := x.productId },
           { vendorCache := some x.vendor
             vendorIdCache := some x.vendorId
             productCache := some x.product
             productIdCache := some x.productId })

/-- qubes.ext.pci.PCIDevice.vendor: return the cached vendor if present,
otherwise the vendor field of a fresh _load_desc call. -/
def pcidevice_vendor (st : PCIDeviceState) (env : LoadEnv) :
    Except Exc (String × PCIDeviceState) :=
  match st.vendorCache with
  | none =>
    match _load_desc st env with
    | .ok (d, st2) => .ok (d.vendor, st2)
    | .error e => .error e
  | some v => .ok (v, st)

/-! ## Attach/detach orchestration (qubes/ext/pci.py) -/

/-- Decidable equality for Except results, used to evaluate the handler
models on concrete environments. -/
instance [DecidableEq e] [DecidableEq a] : DecidableEq (Except e a) := fun x y =>
  match x, y with
  | .ok u, .ok v =>
    if h : u = v then isTrue (by rw [h]) else isFalse (fun hc => h (by cases hc; rfl))
  | .error u, .error v =>
    if h : u = v then isTrue (by rw [h]) else isFalse (fun hc => h (by cases hc; rfl))
  | .ok _, .error _ => isFalse (fun hc => by cases hc)
  | .error _, .ok _ => isFalse (fun hc => by cases hc)

/-- Calls performed against the outside world by the handlers, in order. -/
inductive ExtAction where
  | lookupNode
  | dettachNode
  | attachDevice
  | xlPciList
  | runDetachService
  | detachDevice
deriving DecidableEq

/-- Result of a handler: the normal-or-raised outcome, the external calls
performed, and the log messages emitted. -/
structure HandlerResult where
  result : Except Exc Unit
  actions : List ExtAction
  logs : List String
deriving DecidableEq

/-- Outcomes of the libvirt calls made by bind_pci_to_pciback. -/
structure BindEnv where
  lookup_result : Except Exc Unit
  dettach_result : Except Exc Unit
deriving DecidableEq

/-- qubes.ext.pci.PCIDeviceExtension.bind_pci_to_pciback: look up the node
device (a no-node-device libvirt error becomes a QubesException, any other
error propagates), then detach it from its driver (an internal-error
libvirt error means already detached and is swallowed, any other error
propagates). -/
def bind_pci_to_pciback (env : BindEnv) : Except Exc Unit × List ExtAction :=
  match env.lookup_result with
  | .error (.libvirtError c) =>
    if c = .noNodeDevice then (.error .qubesException, [ .lookupNode ])
    else (.error (.libvirtError c), [ .lookupNode ])
  | .error e => (.error e, [ .lookupNode ])
  | .ok _ =>
    match env.dettach_result with
    | .error (.libvirtError c) =>
      if c = .internalError then (.ok (), [ .lookupNode, .dettachNode ])
      else (.error (.libvirtError c), [ .lookupNode, .dettachNode ])
    | .error e => (.error e, [ .lookupNode, .dettachNode ])
    | .ok _ => (.ok (), [ .lookupNode, .dettachNode ])

/-- Environment of the pre-attach handler: the validation facts it checks
and the outcomes of the external calls it may make. -/
structure AttachEnv where
  device_exists : Bool
  is_adminvm : Bool
  virt_mode : String
  is_running : Bool
  bind : BindEnv
  attach_result : Except Exc Unit
deriving DecidableEq

/-- Log message of the attach failure path. -/
def attachFailLog : String :=
  "Failed to attach PCI device on the fly, changes will be seen after VM restart"

/-- qubes.ext.pci.PCIDeviceExtension.on_device_pre_attached_pci: validate
that the device exists in the live tree, that the target is not dom0 and
not in pvh mode (each failure raising a QubesException before any external
call), return silently when the guest is not running, and otherwise bind
the device to pciback and issue the live attach, with only a
subprocess.CalledProcessError caught, logged and swallowed; any other
exception propagates. -/
def on_device_pre_attached_pci (env : AttachEnv) : HandlerResult :=
  if env.device_exists = false then ⟨.error .qubesException, [], []⟩
  else if env.is_adminvm then ⟨.error .qubesException, [], []⟩
  else if env.virt_mode = "pvh" then ⟨.error .qubesException, [], []⟩
  else if env.is_running = false then ⟨.ok (), [], []⟩
  else
    match bind_pci_to_pciback env.bind with
    | (.error .calledProcessError, bacts) => ⟨.ok (), bacts, [ attachFailLog ]⟩
    | (.error e, bacts) => ⟨.error e, bacts, []⟩
    | (.ok _, bacts) =>
      match env.attach_result with
      | .ok _ => ⟨.ok (), bacts ++ [ .attachDevice ], []⟩
      | .error .calledProcessError =>
        ⟨.ok (), bacts ++ [ .attachDevice ], [ attachFailLog ]⟩
      | .error e => ⟨.error e, bacts ++ [ .attachDevice ], []⟩

/-- Environment of the pre-detach handler: whether the guest is running,
the guest-side BDF found by matching the xl pci-list output against the
host address (none when no line matches), and the outcomes of the
guest-side detach helper and the libvirt detach call. -/
structure DetachEnv where
  is_running : Bool
  xl_match : Option String
  run_service_result : Except Exc Unit
  detach_result : Except Exc Unit
deriving DecidableEq

/-- Log message of the already-detached path. -/
def alreadyDetachedLog : String := "Device already detached"

/-- Log message of the detach failure path. -/
def detachFailLog : String :=
  "Failed to detach PCI device on the fly, changes will be seen after VM restart"

/-- qubes.ext.pci.PCIDeviceExtension.on_device_pre_detached_pci: return
silently when the guest is not running; consult xl pci-list for the
guest-side BDF, and when no line matches, log already-detached and return
normally without any detach call; otherwise run the guest-side detach
helper and the libvirt detach, where a CalledProcessError or a libvirt
error is logged and re-raised and any other exception propagates
unlogged. -/
def on_device_pre_detached_pci (env : DetachEnv) : HandlerResult :=
  if env.is_running = false then ⟨.ok (), [], []⟩
  else
    match env.xl_match with
    | none => ⟨.ok (), [ .xlPciList ], [ alreadyDetachedLog ]⟩
    | some _ =>
      match env.run_service_result with
      | .error .calledProcessError =>
        ⟨.error .calledProcessError, [ .xlPciList, .runDetachService ], [ detachFailLog ]⟩
      | .error (.libvirtError c) =>
        ⟨.error (.libvirtError c), [ .xlPciList, .runDetachService ], [ detachFailLog ]⟩
      | .error e => ⟨.error e, [ .xlPciList, .runDetachService ], []⟩
      | .ok _ =>
        match env.detach_result with
        | .ok _ => ⟨.ok (), [ .xlPciList, .runDetachService, .detachDevice ], []⟩
        | .error .calledProcessError =>
          ⟨.error .calledProcessError,
            [ .xlPciList, .runDetachService, .detachDevice ], [ detachFailLog ]⟩
        | .error (.libvirtError c) =>
          ⟨.error (.libvirtError c),
            [ .xlPciList, .runDetachService, .detachDevice ], [ detachFailLog ]⟩
        | .error e =>
          ⟨.error e, [ .xlPciList, .runDetachService, .detachDevice ], []⟩

/-! ## Port-id migration in load_extras (qubes/vm/__init__.py) -/

/-- The port-id migration step of load_extras: a persisted pci assignment
whose port id is not a wildcard and not already a topology path is
converted with sbdf_to_path, the Python or-expression falling back to the
original value when the conversion returns None (or an empty string). -/
def migrate_port_id (fs : Sysfs) (devclass : PyStr) (port_id : PyStr) :
    Except PyErr PyStr :=
  if devclass = "pci".data ∧ port_id ≠ "*".data ∧ is_pci_path fs port_id = false then
    match sbdf_to_path fs port_id with
    | .error e => .error e
    | .ok r =>
      match r with
      | some s => if s = [] then .ok port_id else .ok s
      | none => .ok port_id
  else .ok port_id

/-! ## Canonical hexadecimal renderings and their arithmetic -/

/-- Fixed-width lowercase hexadecimal rendering, most significant digit
first (the canonical shape of the zero-padded fields of sysfs names). -/
def hexPadRec : Nat → Nat → PyStr
  | 0, _ => []
  | w + 1, n => hexPadRec w (n / 16) ++ [hexDigitChar (n % 16)]

theorem hexPadRec_two (n : Nat) :
    hexPadRec 2 n = [hexDigitChar (n / 16 % 16), hexDigitChar (n % 16)] := rfl

theorem hexPadRec_four (n : Nat) :
    hexPadRec 4 n = [hexDigitChar (n / 16 / 16 / 16 % 16),
      hexDigitChar (n / 16 / 16 % 16), hexDigitChar (n / 16 % 16),
      hexDigitChar (n % 16)] := rfl

theorem hexValDigit_hexDigitChar (m : Nat) (h : m < 16) :
    hexValDigit? (hexDigitChar m) = some m := by
  interval_cases m <;> rfl

theorem hexDigitChar_hexValDigit (c : Char) (m : Nat)
    (h : hexValDigit? c = some m) : hexDigitChar m = c ∧ m < 16 := by
  unfold hexValDigit? at h
  split at h <;> simp_all <;> subst h <;> simp [hexDigitChar]

theorem hexDigit_not_special (c : Char) (m : Nat)
    (h : hexValDigit? c = some m) :
    c ≠ '/' ∧ c ≠ '-' ∧ c ≠ ':' ∧ c ≠ '.' ∧ c ≠ '_' ∧ c ≠ '\n' ∧ c ≠ 'p' := by
  unfold hexValDigit? at h
  split at h <;> simp_all

theorem hexValL_append (l1 l2 : PyStr) :
    hexValL (l1 ++ l2) =
      l2.foldl (fun a c => 16 * a + (hexValDigit? c).getD 0) (hexValL l1) := by
  simp [hexValL, List.foldl_append]

theorem hexValL_snoc (l : PyStr) (c : Char) :
    hexValL (l ++ [c]) = 16 * hexValL l + (hexValDigit? c).getD 0 := by
  simp [hexValL_append, List.foldl]

theorem hexValL_hexPadRec (w n : Nat) (h : n < 16 ^ w) :
    hexValL (hexPadRec w n) = n := by
  induction w generalizing n with
  | zero => simp [hexPadRec, hexValL]; omega
  | succ w ih =>
    have hd : n / 16 < 16 ^ w := by
      have : 16 ^ (w + 1) = 16 ^ w * 16 := by ring
      omega
    rw [hexPadRec, hexValL_snoc, ih _ hd,
      hexValDigit_hexDigitChar _ (Nat.mod_lt _ (by norm_num))]
    simp [Nat.div_add_mod]

theorem hexPadRec_hexValL (w : Nat) (l : PyStr) (hw : l.length = w)
    (hx : ∀ c ∈ l, (hexValDigit? c).isSome) :
    hexPadRec w (hexValL l) = l := by
  induction l using List.reverseRecOn generalizing w with
  | nil => subst hw; rfl
  | append_singleton l c ih =>
    simp only [List.length_append, List.length_singleton] at hw
    subst hw
    have hc : (hexValDigit? c).isSome := hx c (by simp)
    obtain ⟨m, hm⟩ := Option.isSome_iff_exists.mp hc
    obtain ⟨hcm, hmlt⟩ := hexDigitChar_hexValDigit c m hm
    rw [hexValL_snoc, hm]
    show hexPadRec (l.length + 1) (16 * hexValL l + m) = l ++ [c]
    rw [hexPadRec]
    have h1 : (16 * hexValL l + m) / 16 = hexValL l := by omega
    have h2 : (16 * hexValL l + m) % 16 = m := by omega
    rw [h1, h2, hcm, ih _ rfl (fun d hd => hx d (by simp [hd]))]

theorem hexValL_lt (l : PyStr) (hx : ∀ c ∈ l, (hexValDigit? c).isSome) :
    hexValL l < 16 ^ l.length := by
  induction l using List.reverseRecOn with
  | nil => simp [hexValL]
  | append_singleton l c ih =>
    have hc : (hexValDigit? c).isSome := hx c (by simp)
    obtain ⟨m, hm⟩ := Option.isSome_iff_exists.mp hc
    obtain ⟨_, hmlt⟩ := hexDigitChar_hexValDigit c m hm
    have hl := ih (fun d hd => hx d (by simp [hd]))
    rw [hexValL_snoc, hm]
    simp only [List.length_append, List.length_singleton]
    have : 16 ^ (l.length + 1) = 16 ^ l.length * 16 := by ring
    simp only [Option.getD_some]
    omega

theorem hexPadRec_mem (w n : Nat) (c : Char) (h : c ∈ hexPadRec w n) :
    (hexValDigit? c).isSome := by
  induction w generalizing n with
  | zero => simp [hexPadRec] at h
  | succ w ih =>
    rw [hexPadRec] at h
    rcases List.mem_append.mp h with h1 | h1
    · exact ih _ h1
    · have : c = hexDigitChar (n % 16) := by simpa using h1
      subst this
      rw [hexValDigit_hexDigitChar _ (Nat.mod_lt _ (by norm_num))]
      rfl

theorem natToHexAux_zero (f : Nat) : natToHexAux f 0 = [] := by
  cases f <;> rfl

theorem natToHexAux_succ (f n : Nat) :
    natToHexAux (f + 1) (n + 1) =
      natToHexAux f ((n + 1) / 16) ++ [hexDigitChar ((n + 1) % 16)] := rfl

theorem natToHexAux_fuel (n : Nat) :
    ∀ f f', n ≤ f → n ≤ f' → natToHexAux f n = natToHexAux f' n := by
  induction n using Nat.strong_induction_on with
  | _ n ih =>
    intro f f' hf hf'
    match n, f, f' with
    | 0, f, f' => rw [natToHexAux_zero, natToHexAux_zero]
    | n + 1, f + 1, f' + 1 =>
      rw [natToHexAux_succ, natToHexAux_succ,
        ih ((n + 1) / 16) (by omega) f f' (by omega) (by omega)]

theorem natToHex_small (n : Nat) (h : n < 16) : natToHex n = [hexDigitChar n] := by
  match n, h with
  | 0, _ => rfl
  | n + 1, h =>
    show natToHex (n + 1) = _
    rw [natToHex, if_neg (by omega), natToHexAux_succ,
      Nat.div_eq_of_lt h, Nat.mod_eq_of_lt h, natToHexAux_zero]
    rfl

theorem natToHex_step (n : Nat) (h : 16 ≤ n) :
    natToHex n = natToHex (n / 16) ++ [hexDigitChar (n % 16)] := by
  match n, h with
  | n + 1, h =>
    rw [natToHex, if_neg (by omega), natToHexAux_succ]
    have hq : 0 < (n + 1) / 16 := Nat.div_pos h (by norm_num)
    rw [natToHex, if_neg (by omega)]
    rw [natToHexAux_fuel ((n + 1) / 16) (n + 1) ((n + 1) / 16 + 1) (by omega) (by omega)]

theorem natToHex_length (w n : Nat) (hw : 0 < w) (h : n < 16 ^ w) :
    (natToHex n).length ≤ w := by
  induction w generalizing n with
  | zero => omega
  | succ w ih =>
    by_cases hn : n < 16
    · rw [natToHex_small n hn]; simp only [List.length_singleton]; omega
    · have hw' : 0 < w := by
        rcases Nat.eq_zero_or_pos w with h0 | h0
        · subst h0; simp at h; omega
        · exact h0
      rw [natToHex_step n (by omega)]
      have : n / 16 < 16 ^ w := by
        have : 16 ^ (w + 1) = 16 ^ w * 16 := by ring
        omega
      have := ih (n / 16) hw' this
      simp [List.length_append]
      omega

theorem padZero_succ (w : Nat) (l : PyStr) (h : l.length ≤ w) :
    padZero (w + 1) l = '0' :: padZero w l := by
  unfold padZero
  have : w + 1 - l.length = (w - l.length) + 1 := by omega
  rw [this, List.replicate_succ]
  rfl

theorem hexPadRec_zeroPad (w n : Nat) (h : n < 16 ^ w) :
    hexPadRec (w + 1) n = '0' :: hexPadRec w n := by
  induction w generalizing n with
  | zero =>
    have : n = 0 := by simpa using h
    subst this; rfl
  | succ w ih =>
    rw [hexPadRec]
    have : n / 16 < 16 ^ w := by
      have : 16 ^ (w + 1) = 16 ^ w * 16 := by ring
      omega
    rw [ih _ this]
    rfl

theorem fmtHexPad_eq_hexPadRec (w n : Nat) (hw : 0 < w) (h : n < 16 ^ w) :
    fmtHexPad w n = hexPadRec w n := by
  induction w generalizing n with
  | zero => omega
  | succ w ih =>
    rcases Nat.eq_zero_or_pos w with h0 | h0
    · subst h0
      have hn : n < 16 := by simpa using h
      unfold fmtHexPad
      rw [natToHex_small n hn]
      have : hexPadRec 1 n = [hexDigitChar n] := by
        rw [show hexPadRec 1 n = hexPadRec 0 (n / 16) ++ [hexDigitChar (n % 16)] from rfl]
        rw [Nat.mod_eq_of_lt hn]; rfl
      rw [this]; rfl
    · by_cases hn : n < 16 ^ w
      · unfold fmtHexPad
        rw [padZero_succ w _ (natToHex_length w n h0 hn), hexPadRec_zeroPad w n hn]
        have := ih n h0 hn
        unfold fmtHexPad at this
        rw [this]
      · unfold fmtHexPad
        have hn16 : 16 ≤ n := by
          have h16 : (16 : Nat) ≤ 16 ^ w := by
            calc (16 : Nat) = 16 ^ 1 := by norm_num
            _ ≤ 16 ^ w := Nat.pow_le_pow_right (by norm_num) h0
          omega
        rw [natToHex_step n hn16, hexPadRec]
        have hq : n / 16 < 16 ^ w := by
          have : 16 ^ (w + 1) = 16 ^ w * 16 := by ring
          omega
        have hlen : (natToHex (n / 16)).length ≤ w := natToHex_length w (n / 16) h0 hq
        unfold padZero
        simp only [List.length_append, List.length_singleton]
        have := ih (n / 16) h0 hq
        unfold fmtHexPad padZero at this
        rw [show w + 1 - ((natToHex (n / 16)).length + 1) = w - (natToHex (n / 16)).length
          from by omega]
        rw [← List.append_assoc, this]

theorem intToHexFmt_eq_hexPadRec (i : Int) (h0 : 0 ≤ i) (h : i < 256) :
    intToHexFmt 2 i = hexPadRec 2 i.toNat := by
  unfold intToHexFmt
  rw [if_neg (by omega)]
  exact fmtHexPad_eq_hexPadRec 2 i.toNat (by norm_num) (by omega)

/-! ## Specification layer: addresses, bridge chains and their renderings -/

/-- A numeric PCI address: segment, bus, device, function. -/
structure PCIAddr where
  segment : Nat
  bus : Nat
  device : Nat
  function : Nat
deriving DecidableEq

/-- One hop of a live bridge chain: the bus the device sits on, its slot
(device and function numbers), and its secondary bus number when the
device is a bridge exposing one. -/
structure Hop where
  bus : Nat
  dev : Nat
  fn : Nat
  sec : Option Nat
deriving DecidableEq

/-- The colon-and-dot sysfs rendering of an SBDF. -/
def sbdfStr (seg b d f : Nat) : PyStr :=
  hexPadRec 4 seg ++ ':' :: hexPadRec 2 b ++ ':' :: hexPadRec 2 d
    ++ '.' :: [hexDigitChar f]

/-- The canonical hypervisor-style rendering of a numeric address. -/
def canonSbdf (a : PCIAddr) : PyStr :=
  sbdfStr a.segment a.bus a.device a.function

/-- Bus offset contributed by a hop to the next one: its secondary bus
number, or the sentinel -1 when the attribute file is absent. -/
def secOff (h : Hop) : Int :=
  match h.sec with
  | some n => (n : Int)
  | none => -1

/-- The path component the encoder emits for one hop, given the incoming
bus offset: the offset-corrected bus, the slot, and the function. -/
def encPart (off : Int) (h : Hop) : PyStr :=
  hexPadRec 2 (((h.bus : Int) - off).toNat) ++ '_' :: hexPadRec 2 h.dev
    ++ '.' :: [hexDigitChar h.fn]

/-- The path components the encoder emits for a chain, threading the bus
offsets learned from each hop's secondary bus number. -/
def encParts : Int → List Hop → List PyStr
  | _, [] => []
  | off, h :: t => encPart off h :: encParts (secOff h) t

/-- The conditions checked by the asserts of the codec loops along a
chain: at each hop the incoming offset is not the exhaustion sentinel and
does not exceed the hop's bus number. -/
def chainOk : Int → List Hop → Prop
  | _, [] => True
  | off, h :: t => off ≠ -1 ∧ off ≤ (h.bus : Int) ∧ chainOk (secOff h) t

instance chainOkDec : (off : Int) → (hops : List Hop) → Decidable (chainOk off hops)
  | _, [] => .isTrue trivial
  | off, h :: t =>
    have : Decidable (chainOk (secOff h) t) := chainOkDec (secOff h) t
    by unfold chainOk; infer_instance

/-- Agreement between a hop's recorded secondary bus number and the
secondary_bus_number attribute file of the tree under the given key: the
file is absent exactly when the hop records none, and otherwise its
contents parse to the recorded number. -/
def SecMatch (fs : Sysfs) (key : PyStr) (sec : Option Nat) : Prop :=
  match sec with
  | some n => (alookup key fs.secondaryBus).bind pyInt = some ((n : Int))
  | none => alookup key fs.secondaryBus = none

instance secMatchDec (fs : Sysfs) (key : PyStr) (sec : Option Nat) :
    Decidable (SecMatch fs key sec) := by
  unfold SecMatch; cases sec <;> infer_instance

/-- A benign secondary_bus_number entry under a key: absent, or with
contents that parse as an integer (so reading it raises nothing). -/
def SecOk (fs : Sysfs) (key : PyStr) : Prop :=
  match alookup key fs.secondaryBus with
  | none => True
  | some c => (pyInt c).isSome

instance secOkDec (fs : Sysfs) (key : PyStr) : Decidable (SecOk fs key) := by
  unfold SecOk
  cases alookup key fs.secondaryBus <;> infer_instance

/-- Field bounds of a live hop. -/
def HopWF (h : Hop) : Prop := h.bus < 256 ∧ h.dev < 256 ∧ h.fn < 16

instance hopWFDec (h : Hop) : Decidable (HopWF h) := by
  unfold HopWF; infer_instance

/-- The sysfs symlink target for a device whose ancestor chain under root
bus (seg, rootbus) is hops: the relative climb to /sys/devices, the root
bus directory, then one SBDF directory per hop. -/
def chainLink (seg rootbus : Nat) (hops : List Hop) : PyStr :=
  "../../../devices".data ++ '/' :: 'p' :: 'c' :: 'i' :: hexPadRec 4 seg
    ++ ':' :: hexPadRec 2 rootbus
    ++ '/' :: pyJoin ['/'] (hops.map (fun h => sbdfStr seg h.bus h.dev h.fn))

/-- Well-formedness of a live bridge chain for a target address in a tree:
bounded fields, the assert conditions of the codec loops, agreement of
every hop with the tree's secondary_bus_number files, the device's symlink
resolving to the chain, the last hop being the target, and the target's
bus not itself being a root bus. -/
def ChainWF (fs : Sysfs) (seg rootbus : Nat) (hops : List Hop) (addr : PCIAddr) : Prop :=
  seg < 65536 ∧ rootbus < 256 ∧ hops ≠ []
  ∧ (∀ h ∈ hops, HopWF h)
  ∧ chainOk 0 hops
  ∧ (∀ h ∈ hops, SecMatch fs (sbdfStr seg h.bus h.dev h.fn) h.sec)
  ∧ alookup (canonSbdf addr) fs.devLinks = some (chainLink seg rootbus hops)
  ∧ addr.segment = seg
  ∧ (match hops.getLast? with
     | some h => h.bus = addr.bus ∧ h.dev = addr.device ∧ h.fn = addr.function
     | none => False)
  ∧ (hexPadRec 4 seg ++ ':' :: hexPadRec 2 addr.bus) ∉ rootBusesOf fs

instance chainWFDec (fs : Sysfs) (seg rootbus : Nat) (hops : List Hop)
    (addr : PCIAddr) : Decidable (ChainWF fs seg rootbus hops addr) := by
  unfold ChainWF
  cases hops.getLast? <;> infer_instance

/-- Reachability of an address directly on a root bus of the tree: its
segment-and-bus string is listed under /sys/devices, its fields are
bounded, and its secondary_bus_number entry, if any, is readable. -/
def RootReach (fs : Sysfs) (addr : PCIAddr) : Prop :=
  (hexPadRec 4 addr.segment ++ ':' :: hexPadRec 2 addr.bus) ∈ rootBusesOf fs
  ∧ addr.segment < 65536 ∧ addr.bus < 256 ∧ addr.device < 256 ∧ addr.function < 16
  ∧ SecOk fs (canonSbdf addr)

instance rootReachDec (fs : Sysfs) (addr : PCIAddr) : Decidable (RootReach fs addr) := by
  unfold RootReach; infer_instance

/-- Reachability of an address in the live tree: directly on a root bus,
or behind a well-formed bridge chain. -/
def Reachable (fs : Sysfs) (addr : PCIAddr) : Prop :=
  RootReach fs addr ∨ ∃ seg rootbus hops, ChainWF fs seg rootbus hops addr

/-- The topology-path string the encoder produces for a chain: the encoded
hops dash-joined, with a segment prefix when the segment is not the
default. -/
def renderPathStr (seg : Nat) (hops : List Hop) : PyStr :=
  (if seg = 0 then [] else hexPadRec 4 seg ++ ['_']) ++ pyJoin ['-'] (encParts 0 hops)

/-- Numeric address denoted by a regular-expression match, the segment
defaulting to zero when absent. -/
def matchAddr (m : SbdfMatch) : PCIAddr :=
  ⟨(match m.segment with
    | some s => hexValL s
    | none => 0), hexValL m.bus, hexValL m.device, hexValL m.function⟩

/-! ## String lemmas for the codec proofs -/

theorem splitOnChar_ne_nil (c : Char) (s : PyStr) : splitOnChar c s ≠ [] := by
  induction s with
  | nil => simp [splitOnChar]
  | cons a t ih =>
    rw [splitOnChar]
    split
    · simp
    · match h : splitOnChar c t with
      | [] => exact absurd h ih
      | x :: xs => simp

theorem splitOnChar_of_not_mem (c : Char) (s : PyStr) (h : c ∉ s) :
    splitOnChar c s = [s] := by
  induction s with
  | nil => rfl
  | cons a t ih =>
    rw [splitOnChar, if_neg (by intro he; exact h (by simp [he]))]
    rw [ih (by intro ht; exact h (by simp [ht]))]

theorem splitOnChar_cons_sep (c : Char) (s : PyStr) :
    splitOnChar c (c :: s) = [] :: splitOnChar c s := by
  rw [splitOnChar, if_pos rfl]

theorem splitOnChar_append_left (c : Char) (pfx rest : PyStr) (h : c ∉ pfx) :
    ∀ hd tl, splitOnChar c rest = hd :: tl →
      splitOnChar c (pfx ++ rest) = (pfx ++ hd) :: tl := by
  induction pfx with
  | nil => intro hd tl hs; simpa using hs
  | cons a t ih =>
    intro hd tl hs
    have ha : a ≠ c := by intro he; exact h (by simp [he])
    rw [List.cons_append, splitOnChar, if_neg ha,
      ih (by intro ht; exact h (by simp [ht])) hd tl hs]
    rfl

theorem splitOnChar_pyJoin (c : Char) (parts : List PyStr)
    (hne : parts ≠ []) (hfree : ∀ p ∈ parts, c ∉ p) :
    splitOnChar c (pyJoin [c] parts) = parts := by
  induction parts with
  | nil => exact absurd rfl hne
  | cons p ps ih =>
    match ps with
    | [] =>
      show splitOnChar c p = [p]
      exact splitOnChar_of_not_mem c p (hfree p (by simp))
    | q :: qs =>
      have hrec := ih (by simp) (fun x hx => hfree x (List.mem_cons_of_mem _ hx))
      show splitOnChar c (p ++ [c] ++ pyJoin [c] (q :: qs)) = p :: q :: qs
      rw [List.append_assoc]
      have hstep : splitOnChar c ([c] ++ pyJoin [c] (q :: qs))
          = [] :: splitOnChar c (pyJoin [c] (q :: qs)) :=
        splitOnChar_cons_sep c (pyJoin [c] (q :: qs))
      rw [splitOnChar_append_left c p ([c] ++ pyJoin [c] (q :: qs))
        (hfree p (by simp)) [] (splitOnChar c (pyJoin [c] (q :: qs))) hstep,
        List.append_nil, hrec]

theorem isPrefixOf_append_self (l b : PyStr) : l.isPrefixOf (l ++ b) = true := by
  induction l with
  | nil => simp [List.isPrefixOf]
  | cons a t ih => simp [List.isPrefixOf, ih]

theorem pyPartition_self_append (sep b : PyStr) (h : sep ≠ []) :
    pyPartition sep (sep ++ b) = ([], sep, b) := by
  match sep, h with
  | c :: s, _ =>
    show pyPartition (c :: s) ((c :: s) ++ b) = _
    rw [List.cons_append, pyPartition, if_pos]
    · rw [← List.cons_append, List.drop_left]
    · rw [← List.cons_append]; exact isPrefixOf_append_self (c :: s) b

theorem pyPartition_cons_notprefix (sep : PyStr) (c : Char) (s : PyStr)
    (h : ¬ (sep.isPrefixOf (c :: s) = true)) :
    pyPartition sep (c :: s) =
      ((c :: (pyPartition sep s).1), (pyPartition sep s).2.1, (pyPartition sep s).2.2) := by
  rw [pyPartition, if_neg h]

theorem relLinksData : "../../../devices".data =
    ['.', '.', '/', '.', '.', '/', '.', '.', '/', 'd', 'e', 'v', 'i', 'c', 'e', 's'] := rfl

theorem sepPrefix_shape (tail : PyStr) (x y : Char) (q : PyStr)
    (h : (('/' :: 'p' :: 'c' :: 'i' :: tail)).isPrefixOf (x :: y :: q) = true) :
    x = '/' ∧ y = 'p' := by
  simp [List.isPrefixOf] at h
  exact ⟨h.1.symm, h.2.1.symm⟩

theorem pyPartition_append_nomatch (sep pre rest : PyStr)
    (h : ∀ suf : PyStr, suf <:+ pre → suf ≠ [] →
      ¬ (sep.isPrefixOf (suf ++ rest) = true)) :
    pyPartition sep (pre ++ rest) =
      (pre ++ (pyPartition sep rest).1,
        (pyPartition sep rest).2.1, (pyPartition sep rest).2.2) := by
  induction pre with
  | nil => simp
  | cons c t ih =>
    rw [List.cons_append,
      pyPartition_cons_notprefix sep c (t ++ rest)
        (by simpa using h (c :: t) List.suffix_rfl (by simp)),
      ih (fun suf hsuf hne => h suf (hsuf.trans (List.suffix_cons c t)) hne)]
    simp

theorem pyPartition_chainRel (seg : Nat) (b : PyStr) :
    pyPartition ('/' :: 'p' :: 'c' :: 'i' :: (hexPadRec 4 seg ++ [':']))
      ("../../../devices".data ++ '/' :: 'p' :: 'c' :: 'i'
        :: (hexPadRec 4 seg ++ [':']) ++ b)
      = ("../../../devices".data,
         '/' :: 'p' :: 'c' :: 'i' :: (hexPadRec 4 seg ++ [':']), b) := by
  have notp : ∀ (x y : Char) (q : PyStr), (x = '/' → y = 'p' → False) →
      ¬ (('/' :: 'p' :: 'c' :: 'i' :: (hexPadRec 4 seg ++ [':'])).isPrefixOf
        (x :: y :: q) = true) := by
    intro x y q hxy hp
    obtain ⟨h1, h2⟩ := sepPrefix_shape _ x y q hp
    exact hxy h1 h2
  have hmain := pyPartition_append_nomatch
    ('/' :: 'p' :: 'c' :: 'i' :: (hexPadRec 4 seg ++ [':']))
    ("../../../devices".data)
    (('/' :: 'p' :: 'c' :: 'i' :: (hexPadRec 4 seg ++ [':'])) ++ b)
    (by
      intro suf hsuf hne
      rw [relLinksData] at hsuf
      have hmem := (List.mem_tails suf _).mpr hsuf
      simp only [List.tails] at hmem
      fin_cases hmem <;>
        first
          | exact absurd rfl hne
          | exact notp _ _ _ (by decide))
  rw [pyPartition_self_append _ b (by simp)] at hmain
  simpa using hmain

/-! ## Matcher lemmas -/

theorem hv_isSome_mod (m : Nat) :
    (hexValDigit? (hexDigitChar (m % 16))).isSome = true := by
  rw [hexValDigit_hexDigitChar _ (Nat.mod_lt _ (by norm_num))]; rfl

theorem digit_mod_props (m : Nat) :
    hexDigitChar (m % 16) ≠ '/' ∧ hexDigitChar (m % 16) ≠ '-'
    ∧ hexDigitChar (m % 16) ≠ ':' ∧ hexDigitChar (m % 16) ≠ '.'
    ∧ hexDigitChar (m % 16) ≠ '_' ∧ hexDigitChar (m % 16) ≠ '\n'
    ∧ hexDigitChar (m % 16) ≠ 'p' :=
  hexDigit_not_special _ _ (hexValDigit_hexDigitChar _ (Nat.mod_lt _ (by norm_num)))

theorem sbdfRegexMatch_sbdfStr (seg b d f : Nat) (hf : f < 16) :
    sbdfRegexMatch (sbdfStr seg b d f) =
      some ⟨some (hexPadRec 4 seg), hexPadRec 2 b, hexPadRec 2 d, [hexDigitChar f]⟩ := by
  have hp : ('p' == hexDigitChar (seg / 16 / 16 / 16 % 16)) = false := by
    simp [Ne.symm (digit_mod_props (seg / 16 / 16 / 16)).2.2.2.2.2.2]
  have hfj : (hexValDigit? (hexDigitChar f)).isSome = true := by
    rw [hexValDigit_hexDigitChar _ hf]; rfl
  rw [sbdfStr, hexPadRec_four, hexPadRec_two b, hexPadRec_two d]
  simp [sbdfRegexMatch, sbdfCore, matchBdfTail, List.isPrefixOf, hp, hv_isSome_mod, hfj]

theorem matchBdfTail_inv (s : PyStr) (b d f : PyStr)
    (h : matchBdfTail s = some (b, d, f)) :
    b.length = 2 ∧ (∀ c ∈ b, (hexValDigit? c).isSome)
    ∧ d.length = 2 ∧ (∀ c ∈ d, (hexValDigit? c).isSome)
    ∧ f.length = 1 ∧ (∀ c ∈ f, (hexValDigit? c).isSome) := by
  unfold matchBdfTail at h
  split at h
  · rename_i x1 x2 y1 z1 z2 y2 w1
    split at h
    · rename_i hc
      obtain ⟨h1, h2, h3, h4, h5, h6, h7⟩ := hc
      have hcomp : [x1, x2] = b ∧ [z1, z2] = d ∧ [w1] = f := by
        injection h with h
        exact ⟨congrArg Prod.fst h,
          congrArg Prod.fst (congrArg Prod.snd h),
          congrArg Prod.snd (congrArg Prod.snd h)⟩
      obtain ⟨hb1, hb2, hb3⟩ := hcomp
      subst hb1; subst hb2; subst hb3
      refine ⟨rfl, fun c hm => ?_, rfl, fun c hm => ?_, rfl, fun c hm => ?_⟩
      · rcases (by simpa using hm : c = x1 ∨ c = x2) with rfl | rfl
        · exact h1
        · exact h2
      · rcases (by simpa using hm : c = z1 ∨ c = z2) with rfl | rfl
        · exact h4
        · exact h5
      · have : c = w1 := by simpa using hm
        subst this; exact h7
    · exact absurd h (by simp)
  · exact absurd h (by simp)

theorem sbdfCore_inv (rest : PyStr) (m : SbdfMatch)
    (h : sbdfCore rest = some m) :
    m.bus.length = 2 ∧ (∀ c ∈ m.bus, (hexValDigit? c).isSome)
    ∧ m.device.length = 2 ∧ (∀ c ∈ m.device, (hexValDigit? c).isSome)
    ∧ m.function.length = 1 ∧ (∀ c ∈ m.function, (hexValDigit? c).isSome)
    ∧ (∀ s, m.segment = some s →
        s.length = 4 ∧ (∀ c ∈ s, (hexValDigit? c).isSome)) := by
  unfold sbdfCore at h
  split at h
  · rename_i s1 s2 s3 s4 sep tail
    split at h
    · rename_i hc
      obtain ⟨h1, h2, h3, h4, h5⟩ := hc
      split at h
      · rename_i b d f htail
        injection h with h
        subst h
        obtain ⟨q1, q2, q3, q4, q5, q6⟩ := matchBdfTail_inv _ _ _ _ htail
        refine ⟨q1, q2, q3, q4, q5, q6, fun s hs => ?_⟩
        have : [s1, s2, s3, s4] = s := by
          simpa using hs
        subst this
        refine ⟨rfl, fun c hm => ?_⟩
        rcases (by simpa using hm : c = s1 ∨ c = s2 ∨ c = s3 ∨ c = s4) with
          rfl | rfl | rfl | rfl
        · exact h1
        · exact h2
        · exact h3
        · exact h4
      · split at h
        · rename_i b d f htail
          injection h with h
          subst h
          obtain ⟨q1, q2, q3, q4, q5, q6⟩ := matchBdfTail_inv _ _ _ _ htail
          exact ⟨q1, q2, q3, q4, q5, q6, fun s hs => by simp at hs⟩
        · exact absurd h (by simp)
    · split at h
      · rename_i b d f htail
        injection h with h
        subst h
        obtain ⟨q1, q2, q3, q4, q5, q6⟩ := matchBdfTail_inv _ _ _ _ htail
        exact ⟨q1, q2, q3, q4, q5, q6, fun s hs => by simp at hs⟩
      · exact absurd h (by simp)
  · split at h
    · rename_i b d f htail
      injection h with h
      subst h
      obtain ⟨q1, q2, q3, q4, q5, q6⟩ := matchBdfTail_inv _ _ _ _ htail
      exact ⟨q1, q2, q3, q4, q5, q6, fun s hs => by simp at hs⟩
    · exact absurd h (by simp)

theorem sbdfRegexMatch_inv (device_id : PyStr) (m : SbdfMatch)
    (h : sbdfRegexMatch device_id = some m) :
    m.bus.length = 2 ∧ (∀ c ∈ m.bus, (hexValDigit? c).isSome)
    ∧ m.device.length = 2 ∧ (∀ c ∈ m.device, (hexValDigit? c).isSome)
    ∧ m.function.length = 1 ∧ (∀ c ∈ m.function, (hexValDigit? c).isSome)
    ∧ (∀ s, m.segment = some s →
        s.length = 4 ∧ (∀ c ∈ s, (hexValDigit? c).isSome)) :=
  sbdfCore_inv _ m h

theorem hv_underscore : hexValDigit? '_' = none := rfl

theorem hv_dot : hexValDigit? '.' = none := rfl

theorem hex_canon (w : Nat) (l : PyStr) (hw : l.length = w)
    (hx : ∀ c ∈ l, (hexValDigit? c).isSome) :
    l = hexPadRec w (hexValL l) ∧ hexValL l < 16 ^ w := by
  refine ⟨(hexPadRec_hexValL w l hw hx).symm, ?_⟩
  have := hexValL_lt l hx
  rwa [hw] at this

theorem sbdfMatch_canon (device_id : PyStr) (m : SbdfMatch)
    (h : sbdfRegexMatch device_id = some m) :
    m.bus = hexPadRec 2 (matchAddr m).bus ∧ (matchAddr m).bus < 256
    ∧ m.device = hexPadRec 2 (matchAddr m).device ∧ (matchAddr m).device < 256
    ∧ m.function = [hexDigitChar (matchAddr m).function]
    ∧ (matchAddr m).function < 16
    ∧ m.segment.getD ['0', '0', '0', '0'] = hexPadRec 4 (matchAddr m).segment
    ∧ (matchAddr m).segment < 65536 := by
  obtain ⟨q1, q2, q3, q4, q5, q6, q7⟩ := sbdfRegexMatch_inv _ _ h
  obtain ⟨hb, hblt⟩ := hex_canon 2 m.bus q1 q2
  obtain ⟨hd, hdlt⟩ := hex_canon 2 m.device q3 q4
  have hfn : m.function = [hexDigitChar (hexValL m.function)]
      ∧ hexValL m.function < 16 := by
    obtain ⟨c, hc⟩ := List.length_eq_one.mp q5
    have hcx := q6 c (by rw [hc]; simp)
    obtain ⟨m0, hm0⟩ := Option.isSome_iff_exists.mp hcx
    obtain ⟨hdc, hlt⟩ := hexDigitChar_hexValDigit c m0 hm0
    have hv : hexValL m.function = m0 := by
      rw [hc]; simp [hexValL, hm0]
    rw [hv, hdc]
    exact ⟨hc, hlt⟩
  have hseg : m.segment.getD ['0', '0', '0', '0']
      = hexPadRec 4 (match m.segment with
        | some s => hexValL s
        | none => 0)
      ∧ (match m.segment with
        | some s => hexValL s
        | none => 0) < 65536 := by
    match hms : m.segment with
    | none => exact ⟨by decide, by norm_num⟩
    | some s =>
      obtain ⟨hs4, hsx⟩ := q7 s hms
      obtain ⟨hs, hslt⟩ := hex_canon 4 s hs4 hsx
      exact ⟨hs, by simpa using hslt⟩
  exact ⟨hb, by simpa using hblt, hd, by simpa using hdlt,
    hfn.1, hfn.2, hseg.1, hseg.2⟩

theorem matchHopRegex_encPart (a b : Nat) (w1 : Char)
    (hw : (hexValDigit? w1).isSome) :
    matchHopRegex (hexPadRec 2 a ++ '_' :: hexPadRec 2 b ++ '.' :: [w1])
      = some (hexPadRec 2 a, hexPadRec 2 b, [w1]) := by
  rw [hexPadRec_two a, hexPadRec_two b]
  simp [matchHopRegex, takeHexRun, hv_isSome_mod, hw, hv_underscore, hv_dot]

theorem matchSegmentRe_mid (x1 x2 : Char) (r : PyStr) :
    matchSegmentRe (x1 :: x2 :: '_' :: r) = none := by
  match r with
  | [] => rfl
  | [c] => rfl
  | c1 :: c2 :: t => simp [matchSegmentRe, hv_underscore]

theorem matchSegmentRe_pfx (seg : Nat) (r : PyStr) (hr : '\n' ∉ r) :
    matchSegmentRe (hexPadRec 4 seg ++ '_' :: r) = some (hexPadRec 4 seg, r) := by
  rw [hexPadRec_four]
  simp [matchSegmentRe, hv_isSome_mod, hr]

/-! ## Loop lemmas for the codec -/

theorem mem_sbdfStr_safe (seg b d f : Nat) (hf : f < 16) (c : Char)
    (h : c ∈ sbdfStr seg b d f) : c ≠ '/' ∧ c ≠ '-' ∧ c ≠ '\n' := by
  have hcase : (hexValDigit? c).isSome ∨ c = ':' ∨ c = '.' := by
    unfold sbdfStr at h
    simp only [List.mem_append, List.mem_cons, List.mem_singleton] at h
    rcases h with ((h | h | h) | h | h) | h | h | h
    · exact Or.inl (hexPadRec_mem 4 seg c h)
    · exact Or.inr (Or.inl h)
    · exact Or.inl (hexPadRec_mem 2 b c h)
    · exact Or.inr (Or.inl h)
    · exact Or.inl (hexPadRec_mem 2 d c h)
    · exact Or.inr (Or.inr h)
    · subst h
      left
      rw [hexValDigit_hexDigitChar f hf]
      rfl
    · simp at h
  rcases hcase with hx | rfl | rfl
  · obtain ⟨m, hm⟩ := Option.isSome_iff_exists.mp hx
    obtain ⟨h1, h2, _, _, _, h6, _⟩ := hexDigit_not_special c m hm
    exact ⟨h1, h2, h6⟩
  · exact ⟨by decide, by decide, by decide⟩
  · exact ⟨by decide, by decide, by decide⟩

theorem mem_encPart_safe (off : Int) (h : Hop) (hf : h.fn < 16) (c : Char)
    (hm : c ∈ encPart off h) : c ≠ '-' ∧ c ≠ '\n' := by
  have hcase : (hexValDigit? c).isSome ∨ c = '_' ∨ c = '.' := by
    unfold encPart at hm
    simp only [List.mem_append, List.mem_cons, List.mem_singleton] at hm
    rcases hm with (hm | hm | hm) | hm | hm | hm
    · exact Or.inl (hexPadRec_mem 2 _ c hm)
    · exact Or.inr (Or.inl hm)
    · exact Or.inl (hexPadRec_mem 2 _ c hm)
    · exact Or.inr (Or.inr hm)
    · subst hm
      left
      rw [hexValDigit_hexDigitChar _ hf]
      rfl
    · simp at hm
  rcases hcase with hx | rfl | rfl
  · obtain ⟨m, hmm⟩ := Option.isSome_iff_exists.mp hx
    obtain ⟨_, h2, _, _, _, h6, _⟩ := hexDigit_not_special c m hmm
    exact ⟨h2, h6⟩
  · exact ⟨by decide, by decide⟩
  · exact ⟨by decide, by decide⟩

/-- The bus offset in force after the codec has walked a list of hops. -/
def offAfter : Int → List Hop → Int
  | off, [] => off
  | _, h :: t => offAfter (secOff h) t

theorem encParts_ne_nil (off : Int) (hops : List Hop) (h : hops ≠ []) :
    encParts off hops ≠ [] := by
  cases hops with
  | nil => exact absurd rfl h
  | cons a t => simp [encParts]

theorem sbdfPathLoop_chain (fs : Sysfs) (seg : Nat) (hops : List Hop) :
    ∀ (off : Int) (acc : List PyStr),
      0 ≤ off →
      chainOk off hops →
      (∀ h ∈ hops, HopWF h) →
      (∀ h ∈ hops, SecMatch fs (sbdfStr seg h.bus h.dev h.fn) h.sec) →
      sbdfPathLoop fs (hops.map (fun h => sbdfStr seg h.bus h.dev h.fn)) off acc
        = .ok (acc ++ encParts off hops) := by
  induction hops with
  | nil =>
    intro off acc _ _ _ _
    simp [sbdfPathLoop, encParts]
  | cons h t ih =>
    intro off acc h0 hok hwf hsec
    obtain ⟨hne, hle, hok2⟩ := hok
    obtain ⟨hb, hd, hf⟩ := hwf h (List.mem_cons_self h t)
    rw [List.map_cons]
    rw [show sbdfPathLoop fs
        ((sbdfStr seg h.bus h.dev h.fn) :: t.map (fun h => sbdfStr seg h.bus h.dev h.fn))
        off acc =
      (if off = -1 then .error .assertionError
       else
        match sbdfRegexMatch (sbdfStr seg h.bus h.dev h.fn) with
        | none => .error .valueError
        | some bm =>
          if (hexValL bm.bus : Int) < off then .error .assertionError
          else
            let bus_num : Int := (hexValL bm.bus : Int) - off
            let bridge_str := intToHexFmt 2 bus_num ++ '_' :: bm.device ++ '.' :: bm.function
            match alookup (sbdfStr seg h.bus h.dev h.fn) fs.secondaryBus with
            | some content =>
              match pyInt content with
              | some n => sbdfPathLoop fs (t.map (fun h => sbdfStr seg h.bus h.dev h.fn)) n
                  (acc ++ [bridge_str])
              | none => .error .valueError
            | none => sbdfPathLoop fs (t.map (fun h => sbdfStr seg h.bus h.dev h.fn)) (-1)
                (acc ++ [bridge_str])) from rfl]
    rw [if_neg hne, sbdfRegexMatch_sbdfStr seg h.bus h.dev h.fn hf]
    simp only
    rw [hexValL_hexPadRec 2 h.bus (by norm_num; omega)]
    rw [if_neg (by omega)]
    have hfmt : intToHexFmt 2 ((h.bus : Int) - off)
        = hexPadRec 2 (((h.bus : Int) - off).toNat) :=
      intToHexFmt_eq_hexPadRec _ (by omega) (by omega)
    have hsm := hsec h (List.mem_cons_self h t)
    unfold SecMatch at hsm
    match hs : h.sec with
    | some n =>
      rw [hs] at hsm
      obtain ⟨content, hcl, hcp⟩ := Option.bind_eq_some.mp hsm
      simp only [hcl, hcp]
      rw [ih (n : Int) (acc ++ [_]) (by positivity) (by
          have : secOff h = (n : Int) := by simp [secOff, hs]
          rwa [this] at hok2)
        (fun x hx => hwf x (List.mem_cons_of_mem h hx))
        (fun x hx => hsec x (List.mem_cons_of_mem h hx))]
      rw [show encParts off (h :: t) = encPart off h :: encParts (secOff h) t from rfl]
      rw [show secOff h = (n : Int) from by simp [secOff, hs]]
      simp [encPart, hfmt]
    | none =>
      rw [hs] at hsm
      rw [hsm]
      match t, hok2 with
      | [], _ =>
        rw [show encParts off [h] = [encPart off h] from rfl]
        simp [sbdfPathLoop, encPart, hfmt]
      | t2 :: ts, hok2 =>
        rw [show secOff h = -1 from by simp [secOff, hs]] at hok2
        exact absurd rfl hok2.1

theorem pathSbdfLoop_iter (fs : Sysfs) (seg : Nat) (h : Hop) (rest : List PyStr)
    (off : Int) (cur : PyStr) (hne : off ≠ -1) (h0 : 0 ≤ off)
    (hle : off ≤ (h.bus : Int)) (hwf : HopWF h) :
    pathSbdfLoop fs (encPart off h :: rest) (hexPadRec 4 seg) off cur
      = (match alookup (sbdfStr seg h.bus h.dev h.fn) fs.secondaryBus with
        | some content =>
          match pyInt content with
          | some n => pathSbdfLoop fs rest (hexPadRec 4 seg) n
              (sbdfStr seg h.bus h.dev h.fn)
          | none => .error .valueError
        | none => pathSbdfLoop fs rest (hexPadRec 4 seg) (-1)
            (sbdfStr seg h.bus h.dev h.fn)) := by
  obtain ⟨hb, hd, hf⟩ := hwf
  have hsp : (if off = 0 then
      match matchSegmentRe (encPart off h) with
      | some (sg, r) => (sg, r)
      | none => (hexPadRec 4 seg, encPart off h)
      else (hexPadRec 4 seg, encPart off h)) = (hexPadRec 4 seg, encPart off h) := by
    have hmid : matchSegmentRe (encPart off h) = none := by
      rw [encPart, hexPadRec_two]
      exact matchSegmentRe_mid _ _ _
    split
    · rw [hmid]
    · rfl
  have hhop : matchHopRegex (encPart off h)
      = some (hexPadRec 2 (((h.bus : Int) - off).toNat), hexPadRec 2 h.dev,
          [hexDigitChar h.fn]) := by
    rw [encPart]
    exact matchHopRegex_encPart _ _ _ (by rw [hexValDigit_hexDigitChar _ hf]; rfl)
  have hval : (hexValL (hexPadRec 2 (((h.bus : Int) - off).toNat)) : Int) + off
      = (h.bus : Int) := by
    rw [hexValL_hexPadRec 2 _ (by norm_num; omega)]
    omega
  have hfmt : intToHexFmt 2 ((hexValL (hexPadRec 2 (((h.bus : Int) - off).toNat)) : Int) + off)
      = hexPadRec 2 h.bus := by
    rw [hval, intToHexFmt_eq_hexPadRec _ (by omega) (by omega)]
    norm_num
  rw [show pathSbdfLoop fs (encPart off h :: rest) (hexPadRec 4 seg) off cur
      = (if off = -1 then .error .assertionError
        else
          match (if off = 0 then
              match matchSegmentRe (encPart off h) with
              | some (sg, r) => (sg, r)
              | none => (hexPadRec 4 seg, encPart off h)
            else (hexPadRec 4 seg, encPart off h)) with
          | (segment, part) =>
            match matchHopRegex part with
            | none => .error .valueError
            | some (b, d, f) =>
              let bus_num : Int := (hexValL b : Int) + off
              let current_dev := segment ++ ':' :: intToHexFmt 2 bus_num
                ++ ':' :: d ++ '.' :: f
              match alookup current_dev fs.secondaryBus with
              | some content =>
                match pyInt content with
                | some n => pathSbdfLoop fs rest segment n current_dev
                | none => .error .valueError
              | none => pathSbdfLoop fs rest segment (-1) current_dev) from rfl]
  rw [if_neg hne, hsp]
  simp only
  rw [hhop]
  simp only
  rw [hfmt]
  rfl

theorem pathSbdfLoop_chain (fs : Sysfs) (seg : Nat) (hops : List Hop) :
    ∀ (off : Int) (cur : PyStr) (more : List PyStr),
      0 ≤ off →
      chainOk off hops →
      (∀ h ∈ hops, HopWF h) →
      (∀ h ∈ hops, SecMatch fs (sbdfStr seg h.bus h.dev h.fn) h.sec) →
      pathSbdfLoop fs (encParts off hops ++ more) (hexPadRec 4 seg) off cur
        = pathSbdfLoop fs more (hexPadRec 4 seg) (offAfter off hops)
            ((hops.map (fun h => sbdfStr seg h.bus h.dev h.fn)).getLastD cur) := by
  induction hops with
  | nil =>
    intro off cur more _ _ _ _
    simp [encParts, offAfter]
  | cons h t ih =>
    intro off cur more h0 hok hwf hsec
    obtain ⟨hne, hle, hok2⟩ := hok
    rw [show encParts off (h :: t) = encPart off h :: encParts (secOff h) t from rfl,
      List.cons_append,
      pathSbdfLoop_iter fs seg h (encParts (secOff h) t ++ more) off cur hne h0 hle
        (hwf h (List.mem_cons_self h t))]
    have hsm := hsec h (List.mem_cons_self h t)
    unfold SecMatch at hsm
    match hs : h.sec with
    | some n =>
      rw [hs] at hsm
      obtain ⟨content, hcl, hcp⟩ := Option.bind_eq_some.mp hsm
      simp only [hcl, hcp]
      rw [show offAfter off (h :: t) = offAfter (secOff h) t from rfl,
        show secOff h = (n : Int) from by simp [secOff, hs]]
      rw [ih (n : Int) (sbdfStr seg h.bus h.dev h.fn) more (by positivity)
        (by rw [show secOff h = (n : Int) from by simp [secOff, hs]] at hok2; exact hok2)
        (fun x hx => hwf x (List.mem_cons_of_mem h hx))
        (fun x hx => hsec x (List.mem_cons_of_mem h hx))]
      rw [List.map_cons, List.getLastD_cons]
    | none =>
      rw [hs] at hsm
      simp only [hsm]
      match t, hok2 with
      | [], _ =>
        rw [show offAfter off [h] = secOff h from rfl,
          show secOff h = -1 from by simp [secOff, hs]]
        rw [show encParts (-1) ([] : List Hop) = [] from rfl, List.nil_append]
        rfl
      | t2 :: ts, hok2 =>
        rw [show secOff h = -1 from by simp [secOff, hs]] at hok2
        exact absurd rfl hok2.1

theorem pathSbdfLoop_strip (fs : Sysfs) (seg : Nat) (p : PyStr) (rest : List PyStr)
    (s0 cur : PyStr) (hnone : matchSegmentRe p = none) (hnl : '\n' ∉ p) :
    pathSbdfLoop fs ((hexPadRec 4 seg ++ '_' :: p) :: rest) s0 0 cur
      = pathSbdfLoop fs (p :: rest) (hexPadRec 4 seg) 0 cur := by
  have h1 : (((0 : Int) = -1)) = False := by simp
  have h2 : (((0 : Int) = 0)) = True := by simp
  simp only [pathSbdfLoop, h1, h2, if_false, if_true,
    matchSegmentRe_pfx seg p hnl, hnone]

theorem hexPadRec_four_zero : hexPadRec 4 0 = ['0', '0', '0', '0'] := by decide

theorem hexPadRec_four_eq_zero_iff (seg : Nat) (h : seg < 65536) :
    (hexPadRec 4 seg = ['0', '0', '0', '0']) ↔ seg = 0 := by
  constructor
  · intro he
    have := hexValL_hexPadRec 4 seg (by norm_num; omega)
    rw [he] at this
    simpa [hexValL] using this.symm
  · intro he; subst he; exact hexPadRec_four_zero

theorem mem_encParts (off : Int) (hops : List Hop) (p : PyStr)
    (h : p ∈ encParts off hops) :
    ∃ off2 h2, h2 ∈ hops ∧ p = encPart off2 h2 := by
  induction hops generalizing off with
  | nil => simp [encParts] at h
  | cons a t ih =>
    rw [show encParts off (a :: t) = encPart off a :: encParts (secOff a) t from rfl]
      at h
    rcases List.mem_cons.mp h with h | h
    · exact ⟨off, a, List.mem_cons_self a t, h⟩
    · obtain ⟨o2, h2, hmem, hp⟩ := ih _ h
      exact ⟨o2, h2, List.mem_cons_of_mem a hmem, hp⟩

theorem getLastD_map_of_getLast? (f : Hop → PyStr) (hops : List Hop) (hl : Hop)
    (h : hops.getLast? = some hl) :
    ∀ d, (hops.map f).getLastD d = f hl := by
  induction hops with
  | nil => simp at h
  | cons a t ih =>
    intro d
    match t, h, ih with
    | [], h, _ =>
      have : a = hl := by simpa using h
      subst this; rfl
    | b :: t2, h, ih =>
      rw [List.getLast?_cons_cons] at h
      rw [List.map_cons, List.getLastD_cons]
      exact ih h _

/-- The single-hop path string the encoder emits for a device directly on
a root bus (built from the regular-expression groups of the input, which
equal the canonical rendering of the address). -/
def renderRoot (addr : PCIAddr) : PyStr :=
  (if addr.segment = 0 then [] else hexPadRec 4 addr.segment ++ ['_'])
    ++ hexPadRec 2 addr.bus ++ '_' :: hexPadRec 2 addr.device
    ++ '.' :: [hexDigitChar addr.function]

theorem chainLink_decomp (seg rootbus : Nat) (hops : List Hop) :
    chainLink seg rootbus hops
      = "../../../devices".data
        ++ ('/' :: 'p' :: 'c' :: 'i' :: (hexPadRec 4 seg ++ [':']))
        ++ (hexPadRec 2 rootbus
          ++ '/' :: pyJoin ['/'] (hops.map (fun h => sbdfStr seg h.bus h.dev h.fn))) := by
  simp [chainLink, List.append_assoc, List.cons_append]

theorem sbdf_to_path_chain (fs : Sysfs) (device_id : PyStr) (m : SbdfMatch)
    (addr : PCIAddr) (seg rootbus : Nat) (hops : List Hop)
    (hm : sbdfRegexMatch device_id = some m) (ha : matchAddr m = addr)
    (hwf : ChainWF fs seg rootbus hops addr) :
    sbdf_to_path fs device_id = .ok (some (renderPathStr seg hops)) := by
  obtain ⟨hseg16, hrb, hne2, hhopwf, hok, hsec, hlink, haseg, hlast, hnotroot⟩ := hwf
  obtain ⟨cb, cblt, cd, cdlt, cf, cflt, cs, cslt⟩ := sbdfMatch_canon _ _ hm
  rw [ha] at cb cblt cd cdlt cf cflt cs cslt
  rw [haseg] at cs
  unfold sbdf_to_path
  rw [hm]
  simp only
  rw [cs, cb, cd, cf]
  rw [if_neg hnotroot]
  have hlink2 : alookup (hexPadRec 4 seg ++ ':' :: hexPadRec 2 addr.bus
      ++ ':' :: hexPadRec 2 addr.device ++ '.' :: [hexDigitChar addr.function])
      fs.devLinks = some (chainLink seg rootbus hops) := by
    rw [show (hexPadRec 4 seg ++ ':' :: hexPadRec 2 addr.bus
      ++ ':' :: hexPadRec 2 addr.device ++ '.' :: [hexDigitChar addr.function])
      = canonSbdf addr from by rw [canonSbdf, sbdfStr, haseg]]
    exact hlink
  rw [hlink2]
  simp only
  have hsepeq : (('/' :: 'p' :: 'c' :: 'i' :: hexPadRec 4 seg) ++ [':'])
      = '/' :: 'p' :: 'c' :: 'i' :: (hexPadRec 4 seg ++ [':']) := by simp
  rw [show ('/' :: 'p' :: 'c' :: 'i' :: hexPadRec 4 seg ++ [':'])
      = '/' :: 'p' :: 'c' :: 'i' :: (hexPadRec 4 seg ++ [':']) from by simp]
  rw [chainLink_decomp]
  rw [pyPartition_chainRel seg]
  simp only
  rw [if_neg (by decide)]
  rw [hexPadRec_two rootbus]
  rw [show (([hexDigitChar (rootbus / 16 % 16), hexDigitChar (rootbus % 16)]
      ++ '/' :: pyJoin ['/'] (hops.map (fun h => sbdfStr seg h.bus h.dev h.fn))).drop 3)
      = pyJoin ['/'] (hops.map (fun h => sbdfStr seg h.bus h.dev h.fn)) from rfl]
  rw [splitOnChar_pyJoin '/' (hops.map (fun h => sbdfStr seg h.bus h.dev h.fn))
    (by simpa using hne2)
    (by
      intro p hp hc
      obtain ⟨h2, hmem, hpe⟩ := List.mem_map.mp hp
      subst hpe
      exact (mem_sbdfStr_safe seg h2.bus h2.dev h2.fn (hhopwf h2 hmem).2.2 '/' hc).1 rfl)]
  rw [sbdfPathLoop_chain fs seg hops 0 [] (by norm_num) hok hhopwf hsec]
  simp only [List.nil_append]
  rw [renderPathStr]
  by_cases hz : seg = 0
  · subst hz
    rw [if_pos (hexPadRec_four_zero), if_pos rfl]
    simp
  · rw [if_neg (by
        intro hcontra
        exact hz ((hexPadRec_four_eq_zero_iff seg hseg16).mp hcontra)),
      if_neg hz]
    simp

theorem encParts_safe (hops : List Hop) (hhopwf : ∀ h ∈ hops, HopWF h)
    (off : Int) : ∀ p ∈ encParts off hops, ∀ c ∈ p, c ≠ '-' ∧ c ≠ '\n' := by
  intro p hp c hc
  obtain ⟨o2, h2, hmem, hpe⟩ := mem_encParts off hops p hp
  subst hpe
  exact mem_encPart_safe o2 h2 (hhopwf h2 hmem).2.2 c hc

theorem path_to_sbdf_chain (fs : Sysfs) (seg rootbus : Nat) (hops : List Hop)
    (addr : PCIAddr) (hwf : ChainWF fs seg rootbus hops addr) :
    path_to_sbdf fs (renderPathStr seg hops) = .ok (canonSbdf addr) := by
  obtain ⟨hseg16, hrb, hne2, hhopwf, hok, hsec, hlink, haseg, hlast, hnotroot⟩ := hwf
  match hg : hops.getLast? with
  | none =>
    rw [hg] at hlast
    exact absurd hlast (by simp)
  | some hl =>
    rw [hg] at hlast
    obtain ⟨hlb, hld, hlf⟩ := hlast
    have hcanon : sbdfStr seg hl.bus hl.dev hl.fn = canonSbdf addr := by
      rw [canonSbdf, haseg, hlb, hld, hlf]
    have hlastmap := getLastD_map_of_getLast?
      (fun h => sbdfStr seg h.bus h.dev h.fn) hops hl hg
    match hcons : hops, hne2, hok, hhopwf, hsec, hg, hlastmap with
    | h1 :: t, _, hok, hhopwf, hsec, hg, hlastmap =>
      unfold path_to_sbdf
      rw [renderPathStr]
      by_cases hz : seg = 0
      · rw [if_pos hz]
        rw [List.nil_append]
        rw [splitOnChar_pyJoin '-' (encParts 0 (h1 :: t))
          (encParts_ne_nil 0 (h1 :: t) (by simp))
          (fun p hp hc => (encParts_safe (h1 :: t) hhopwf 0 p hp '-' hc).1 rfl)]
        rw [show (['0', '0', '0', '0'] : PyStr) = hexPadRec 4 seg from by
          rw [hz]; exact hexPadRec_four_zero.symm]
        rw [show encParts 0 (h1 :: t) = encParts 0 (h1 :: t) ++ [] from by simp]
        rw [pathSbdfLoop_chain fs seg (h1 :: t) 0 [] [] (by norm_num) hok hhopwf hsec]
        rw [hlastmap]
        rw [show pathSbdfLoop fs [] (hexPadRec 4 seg) (offAfter 0 (h1 :: t))
          (sbdfStr seg hl.bus hl.dev hl.fn)
          = .ok (sbdfStr seg hl.bus hl.dev hl.fn) from rfl]
        rw [hcanon]
      · rw [if_neg hz]
        rw [show encParts 0 (h1 :: t)
          = encPart 0 h1 :: encParts (secOff h1) t from rfl]
        have hsplit : splitOnChar '-'
            ((hexPadRec 4 seg ++ ['_'])
              ++ pyJoin ['-'] (encPart 0 h1 :: encParts (secOff h1) t))
            = ((hexPadRec 4 seg ++ ['_']) ++ encPart 0 h1)
              :: encParts (secOff h1) t := by
          have hj := splitOnChar_pyJoin '-' (encPart 0 h1 :: encParts (secOff h1) t)
            (by simp)
            (by
              intro p hp hc
              exact (encParts_safe (h1 :: t) hhopwf 0 p
                (by rw [show encParts 0 (h1 :: t)
                  = encPart 0 h1 :: encParts (secOff h1) t from rfl]; exact hp)
                '-' hc).1 rfl)
          exact splitOnChar_append_left '-' (hexPadRec 4 seg ++ ['_'])
            (pyJoin ['-'] (encPart 0 h1 :: encParts (secOff h1) t))
            (by
              intro hcmem
              rcases List.mem_append.mp hcmem with hcm | hcm
              · obtain ⟨mm, hmm⟩ := Option.isSome_iff_exists.mp (hexPadRec_mem 4 seg _ hcm)
                exact (hexDigit_not_special _ _ hmm).2.1 rfl
              · simp at hcm)
            _ _ hj
        rw [hsplit]
        rw [show ((hexPadRec 4 seg ++ ['_']) ++ encPart 0 h1)
          = hexPadRec 4 seg ++ '_' :: encPart 0 h1 from by simp]
        rw [pathSbdfLoop_strip fs seg (encPart 0 h1) (encParts (secOff h1) t)
          ['0', '0', '0', '0'] []
          (by rw [encPart, hexPadRec_two]; exact matchSegmentRe_mid _ _ _)
          (by
            intro hcmem
            exact (mem_encPart_safe 0 h1 (hhopwf h1 (by simp)).2.2 '\n' hcmem).2 rfl)]
        rw [show (encPart 0 h1 :: encParts (secOff h1) t : List PyStr)
          = encParts 0 (h1 :: t) ++ [] from by simp [encParts]]
        rw [pathSbdfLoop_chain fs seg (h1 :: t) 0 [] [] (by norm_num) hok hhopwf hsec]
        rw [hlastmap]
        rw [show pathSbdfLoop fs [] (hexPadRec 4 seg) (offAfter 0 (h1 :: t))
          (sbdfStr seg hl.bus hl.dev hl.fn)
          = .ok (sbdfStr seg hl.bus hl.dev hl.fn) from rfl]
        rw [hcanon]

theorem sbdf_to_path_root (fs : Sysfs) (device_id : PyStr) (m : SbdfMatch)
    (addr : PCIAddr) (hm : sbdfRegexMatch device_id = some m)
    (ha : matchAddr m = addr) (hr : RootReach fs addr) :
    sbdf_to_path fs device_id = .ok (some (renderRoot addr)) := by
  obtain ⟨hmem, hseg16, hb, hd, hf, hsok⟩ := hr
  obtain ⟨cb, cblt, cd, cdlt, cf, cflt, cs, cslt⟩ := sbdfMatch_canon _ _ hm
  rw [ha] at cb cd cf cs
  unfold sbdf_to_path
  rw [hm]
  simp only
  rw [cs, cb, cd, cf]
  rw [if_pos hmem]
  rw [renderRoot]
  by_cases hz : addr.segment = 0
  · rw [if_neg (by rw [hz, hexPadRec_four_zero]; simp), if_pos hz]
  · rw [if_pos (by
      intro hcontra
      exact hz ((hexPadRec_four_eq_zero_iff _ hseg16).mp hcontra)), if_neg hz]

theorem mem_rootTail_safe (addr : PCIAddr) (hf : addr.function < 16) (c : Char)
    (h : c ∈ hexPadRec 2 addr.bus ++ '_' :: hexPadRec 2 addr.device
      ++ '.' :: [hexDigitChar addr.function]) : c ≠ '-' ∧ c ≠ '\n' := by
  have hcase : (hexValDigit? c).isSome ∨ c = '_' ∨ c = '.' := by
    rcases List.mem_append.mp h with hx | hx
    · rcases List.mem_append.mp hx with hx | hx
      · exact Or.inl (hexPadRec_mem 2 _ c hx)
      · rcases List.mem_cons.mp hx with rfl | hx
        · exact Or.inr (Or.inl rfl)
        · exact Or.inl (hexPadRec_mem 2 _ c hx)
    · rcases List.mem_cons.mp hx with rfl | hx
      · exact Or.inr (Or.inr rfl)
      · have hxe : c = hexDigitChar addr.function := by simpa using hx
        subst hxe
        exact Or.inl (by rw [hexValDigit_hexDigitChar _ hf]; rfl)
  rcases hcase with hx | rfl | rfl
  · obtain ⟨m, hm⟩ := Option.isSome_iff_exists.mp hx
    obtain ⟨_, h2, _, _, _, h6, _⟩ := hexDigit_not_special c m hm
    exact ⟨h2, h6⟩
  · exact ⟨by decide, by decide⟩
  · exact ⟨by decide, by decide⟩

theorem mem_renderRoot_safe (addr : PCIAddr) (hf : addr.function < 16) (c : Char)
    (h : c ∈ renderRoot addr) : c ≠ '-' ∧ c ≠ '\n' := by
  have hcase : (hexValDigit? c).isSome ∨ c = '_' ∨ c = '.' := by
    unfold renderRoot at h
    rcases List.mem_append.mp h with hx | hx
    · rcases List.mem_append.mp hx with hx | hx
      · rcases List.mem_append.mp hx with hx | hx
        · by_cases hz : addr.segment = 0
          · rw [if_pos hz] at hx
            simp at hx
          · rw [if_neg hz] at hx
            rcases List.mem_append.mp hx with hx | hx
            · exact Or.inl (hexPadRec_mem 4 _ c hx)
            · exact Or.inr (Or.inl (by simpa using hx))
        · exact Or.inl (hexPadRec_mem 2 _ c hx)
      · rcases List.mem_cons.mp hx with rfl | hx
        · exact Or.inr (Or.inl rfl)
        · exact Or.inl (hexPadRec_mem 2 _ c hx)
    · rcases List.mem_cons.mp hx with rfl | hx
      · exact Or.inr (Or.inr rfl)
      · have hxe : c = hexDigitChar addr.function := by simpa using hx
        subst hxe
        exact Or.inl (by rw [hexValDigit_hexDigitChar _ hf]; rfl)
  rcases hcase with hx | rfl | rfl
  · obtain ⟨m, hm⟩ := Option.isSome_iff_exists.mp hx
    obtain ⟨_, h2, _, _, _, h6, _⟩ := hexDigit_not_special c m hm
    exact ⟨h2, h6⟩
  · exact ⟨by decide, by decide⟩
  · exact ⟨by decide, by decide⟩

theorem pathSbdfLoop_rootTail (fs : Sysfs) (addr : PCIAddr)
    (hb : addr.bus < 256) (hf : addr.function < 16)
    (hsok : SecOk fs (canonSbdf addr)) :
    pathSbdfLoop fs
      [hexPadRec 2 addr.bus ++ '_' :: hexPadRec 2 addr.device
        ++ '.' :: [hexDigitChar addr.function]]
      (hexPadRec 4 addr.segment) 0 [] = .ok (canonSbdf addr) := by
  have hsp : (if (0 : Int) = 0 then
      match matchSegmentRe (hexPadRec 2 addr.bus ++ '_' :: hexPadRec 2 addr.device
        ++ '.' :: [hexDigitChar addr.function]) with
      | some (sg, r) => (sg, r)
      | none => (hexPadRec 4 addr.segment,
          hexPadRec 2 addr.bus ++ '_' :: hexPadRec 2 addr.device
            ++ '.' :: [hexDigitChar addr.function])
      else (hexPadRec 4 addr.segment,
        hexPadRec 2 addr.bus ++ '_' :: hexPadRec 2 addr.device
          ++ '.' :: [hexDigitChar addr.function]))
      = (hexPadRec 4 addr.segment,
        hexPadRec 2 addr.bus ++ '_' :: hexPadRec 2 addr.device
          ++ '.' :: [hexDigitChar addr.function]) := by
    rw [if_pos rfl]
    rw [show matchSegmentRe (hexPadRec 2 addr.bus ++ '_' :: hexPadRec 2 addr.device
      ++ '.' :: [hexDigitChar addr.function]) = none from by
      rw [hexPadRec_two addr.bus]; exact matchSegmentRe_mid _ _ _]
  have hhop := matchHopRegex_encPart addr.bus addr.device (hexDigitChar addr.function)
    (by rw [hexValDigit_hexDigitChar _ hf]; rfl)
  have hfmt : intToHexFmt 2 ((hexValL (hexPadRec 2 addr.bus) : Int) + 0)
      = hexPadRec 2 addr.bus := by
    rw [hexValL_hexPadRec 2 _ (by norm_num; omega)]
    rw [intToHexFmt_eq_hexPadRec _ (by omega) (by omega)]
    norm_num
  rw [show pathSbdfLoop fs
      [hexPadRec 2 addr.bus ++ '_' :: hexPadRec 2 addr.device
        ++ '.' :: [hexDigitChar addr.function]]
      (hexPadRec 4 addr.segment) 0 []
      = (if (0 : Int) = -1 then .error .assertionError
        else
          match (if (0 : Int) = 0 then
              match matchSegmentRe (hexPadRec 2 addr.bus ++ '_' :: hexPadRec 2 addr.device
                ++ '.' :: [hexDigitChar addr.function]) with
              | some (sg, r) => (sg, r)
              | none => (hexPadRec 4 addr.segment,
                  hexPadRec 2 addr.bus ++ '_' :: hexPadRec 2 addr.device
                    ++ '.' :: [hexDigitChar addr.function])
            else (hexPadRec 4 addr.segment,
              hexPadRec 2 addr.bus ++ '_' :: hexPadRec 2 addr.device
                ++ '.' :: [hexDigitChar addr.function])) with
          | (segment, part) =>
            match matchHopRegex part with
            | none => .error .valueError
            | some (b, d, f) =>
              let bus_num : Int := (hexValL b : Int) + 0
              let current_dev := segment ++ ':' :: intToHexFmt 2 bus_num
                ++ ':' :: d ++ '.' :: f
              match alookup current_dev fs.secondaryBus with
              | some content =>
                match pyInt content with
                | some n => pathSbdfLoop fs [] segment n current_dev
                | none => .error .valueError
              | none => pathSbdfLoop fs [] segment (-1) current_dev) from rfl]
  rw [if_neg (by decide), hsp]
  simp only
  rw [hhop]
  simp only
  rw [hfmt]
  unfold SecOk at hsok
  rw [show (hexPadRec 4 addr.segment ++ ':' :: hexPadRec 2 addr.bus
    ++ ':' :: hexPadRec 2 addr.device ++ '.' :: [hexDigitChar addr.function])
    = canonSbdf addr from rfl]
  match hcl : alookup (canonSbdf addr) fs.secondaryBus with
  | none =>
    simp only [hcl]
    rfl
  | some content =>
    rw [hcl] at hsok
    obtain ⟨n, hn⟩ := Option.isSome_iff_exists.mp hsok
    simp only [hcl, hn]
    rfl

theorem path_to_sbdf_root (fs : Sysfs) (addr : PCIAddr) (hr : RootReach fs addr) :
    path_to_sbdf fs (renderRoot addr) = .ok (canonSbdf addr) := by
  obtain ⟨hmem, hseg16, hb, hd, hf, hsok⟩ := hr
  unfold path_to_sbdf
  rw [splitOnChar_of_not_mem '-' (renderRoot addr)
    (fun hcm => (mem_renderRoot_safe addr hf '-' hcm).1 rfl)]
  rw [renderRoot]
  by_cases hz : addr.segment = 0
  · rw [if_pos hz, List.nil_append]
    rw [show (['0', '0', '0', '0'] : PyStr) = hexPadRec 4 addr.segment from by
      rw [hz]; exact hexPadRec_four_zero.symm]
    exact pathSbdfLoop_rootTail fs addr hb hf hsok
  · rw [if_neg hz]
    rw [show ((hexPadRec 4 addr.segment ++ ['_'])
      ++ hexPadRec 2 addr.bus ++ '_' :: hexPadRec 2 addr.device
        ++ '.' :: [hexDigitChar addr.function])
      = hexPadRec 4 addr.segment ++ '_' :: (hexPadRec 2 addr.bus
        ++ '_' :: hexPadRec 2 addr.device ++ '.' :: [hexDigitChar addr.function])
      from by simp]
    rw [pathSbdfLoop_strip fs addr.segment _ [] ['0', '0', '0', '0'] []
      (by rw [hexPadRec_two addr.bus]; exact matchSegmentRe_mid _ _ _)
      (fun hcm => (mem_rootTail_safe addr hf '\n' hcm).2 rfl)]
    exact pathSbdfLoop_rootTail fs addr hb hf hsok

/-! ## Claim C1 -/

/-- C1: Topology codec round-trip.  For every device address that is
reachable in the live device tree (directly on a root bus or through a
well-formed bridge chain), encoding with sbdf_to_path succeeds and decoding
the encoded path against the same unchanged tree with path_to_sbdf yields
the canonical rendering of the original address, which parses back to the
same PCI address (segment, bus, device, function) — and this holds
regardless of which accepted textual form the input identifier used, since
the theorem quantifies over every identifier that matches the accepted
grammar and denotes the address. -/
theorem c1_round_trip (fs : Sysfs) (device_id : PyStr) (m : SbdfMatch)
    (addr : PCIAddr) (hm : sbdfRegexMatch device_id = some m)
    (ha : matchAddr m = addr) (hr : Reachable fs addr) :
    ∃ p, sbdf_to_path fs device_id = .ok (some p)
      ∧ path_to_sbdf fs p = .ok (canonSbdf addr)
      ∧ ∃ m2, sbdfRegexMatch (canonSbdf addr) = some m2 ∧ matchAddr m2 = addr := by
  have hparse : ∃ m2, sbdfRegexMatch (canonSbdf addr) = some m2
      ∧ matchAddr m2 = addr := by
    obtain ⟨cb, cblt, cd, cdlt, cf, cflt, cs, cslt⟩ := sbdfMatch_canon _ _ hm
    rw [ha] at cblt cdlt cflt cslt
    refine ⟨⟨some (hexPadRec 4 addr.segment), hexPadRec 2 addr.bus,
      hexPadRec 2 addr.device, [hexDigitChar addr.function]⟩, ?_, ?_⟩
    · exact sbdfRegexMatch_sbdfStr addr.segment addr.bus addr.device
        addr.function cflt
    · show (⟨hexValL (hexPadRec 4 addr.segment), hexValL (hexPadRec 2 addr.bus),
        hexValL (hexPadRec 2 addr.device),
        hexValL [hexDigitChar addr.function]⟩ : PCIAddr) = addr
      rw [hexValL_hexPadRec 4 _ (by norm_num; omega),
        hexValL_hexPadRec 2 _ (by norm_num; omega),
        hexValL_hexPadRec 2 _ (by norm_num; omega)]
      rw [show hexValL [hexDigitChar addr.function] = addr.function from by
        simp [hexValL, hexValDigit_hexDigitChar _ cflt]]
  rcases hr with hroot | ⟨seg, rootbus, hops, hwf⟩
  · exact ⟨renderRoot addr, sbdf_to_path_root fs device_id m addr hm ha hroot,
      path_to_sbdf_root fs addr hroot, hparse⟩
  · exact ⟨renderPathStr seg hops,
      sbdf_to_path_chain fs device_id m addr seg rootbus hops hm ha hwf,
      path_to_sbdf_chain fs seg rootbus hops addr hwf, hparse⟩

/-- The device tree of the end-to-end scenario of the specification: root
bus 0000:00, bridge 0000:00:03.0 with secondary bus 2, device 0000:02:00.0
behind it. -/
def c1fs : Sysfs :=
  ⟨[ "pci0000:00".data ],
   [ ("0000:02:00.0".data,
      "../../../devices/pci0000:00/0000:00:03.0/0000:02:00.0".data) ],
   [ ("0000:00:03.0".data, "2\n".data) ]⟩

/-- Witness for C1: the round trip at the concrete device 0000:02:00.0
behind one bridge, entered in legacy host-style form. -/
theorem c1_round_trip_witness :
    ∃ p, sbdf_to_path c1fs "02_00.0".data = .ok (some p)
      ∧ path_to_sbdf c1fs p = .ok (canonSbdf ⟨0, 2, 0, 0⟩)
      ∧ ∃ m2, sbdfRegexMatch (canonSbdf ⟨0, 2, 0, 0⟩) = some m2
          ∧ matchAddr m2 = ⟨0, 2, 0, 0⟩ :=
  c1_round_trip c1fs "02_00.0".data
    ⟨none, ['0', '2'], ['0', '0'], ['0']⟩ ⟨0, 2, 0, 0⟩
    (by decide) (by decide)
    (Or.inr ⟨0, 0, [⟨0, 3, 0, some 2⟩, ⟨2, 0, 0, none⟩], by decide⟩)

/-! ## Claim C2 -/

/-- A physically coherent chain: every bridge's secondary bus number is
exactly the bus its chain child sits on (as real sysfs ancestor chains
satisfy). -/
def StrictFrom : List Hop → Prop
  | [] => True
  | [_] => True
  | h :: h2 :: t => h.sec = some h2.bus ∧ StrictFrom (h2 :: t)

instance strictFromDec : (hops : List Hop) → Decidable (StrictFrom hops)
  | [] => .isTrue trivial
  | [_] => .isTrue trivial
  | _ :: h2 :: t =>
    have : Decidable (StrictFrom (h2 :: t)) := strictFromDec (h2 :: t)
    by unfold StrictFrom; infer_instance

/-- Two chains over the same physical topology: equal length and equal
device/function slots hop by hop (bus numbers and secondary bus numbers
are free to differ, as renumbering changes them). -/
def SameSlots : List Hop → List Hop → Prop
  | [], [] => True
  | h :: t, h2 :: t2 => h.dev = h2.dev ∧ h.fn = h2.fn ∧ SameSlots t t2
  | _, _ => False

instance sameSlotsDec : (l l2 : List Hop) → Decidable (SameSlots l l2)
  | [], [] => .isTrue trivial
  | h :: t, h2 :: t2 =>
    have : Decidable (SameSlots t t2) := sameSlotsDec t t2
    by unfold SameSlots; infer_instance
  | [], _ :: _ => .isFalse (by unfold SameSlots; exact id)
  | _ :: _, [] => .isFalse (by unfold SameSlots; exact id)

/-- First hop of a chain sits on the given root bus. -/
def HeadBus (rootbus : Nat) (hops : List Hop) : Prop :=
  match hops.head? with
  | some h => h.bus = rootbus
  | none => True

instance headBusDec (rootbus : Nat) (hops : List Hop) :
    Decidable (HeadBus rootbus hops) := by
  unfold HeadBus
  cases hops.head? <;> infer_instance

theorem encParts_eq_aux (l : List Hop) :
    ∀ (l2 : List Hop) (off off2 : Int),
      SameSlots l l2 → StrictFrom l → StrictFrom l2 →
      (match l, l2 with
       | h :: _, h2 :: _ => (h.bus : Int) - off = (h2.bus : Int) - off2
       | _, _ => True) →
      encParts off l = encParts off2 l2 := by
  induction l with
  | nil =>
    intro l2 off off2 hs _ _ _
    match l2, hs with
    | [], _ => rfl
  | cons h t ih =>
    intro l2 off off2 hs hst hst2 hdiff
    match l2, hs with
    | h2 :: t2, hs =>
      obtain ⟨hdev, hfn, hs2⟩ := hs
      have hpart : encPart off h = encPart off2 h2 := by
        rw [encPart, encPart, hdev, hfn, hdiff]
      rw [show encParts off (h :: t) = encPart off h :: encParts (secOff h) t from rfl,
        show encParts off2 (h2 :: t2)
          = encPart off2 h2 :: encParts (secOff h2) t2 from rfl, hpart]
      match t, t2, hs2, hst, hst2 with
      | [], [], _, _, _ => rfl
      | a :: t3, a2 :: t4, hs2, hst, hst2 =>
        obtain ⟨hsec, hst⟩ := hst
        obtain ⟨hsec2, hst2⟩ := hst2
        rw [ih (a2 :: t4) (secOff h) (secOff h2) hs2 hst hst2
          (by
            rw [show secOff h = (a.bus : Int) from by simp [secOff, hsec],
              show secOff h2 = (a2.bus : Int) from by simp [secOff, hsec2]]
            simp)]

/-- C2: Path stability under renumbering.  For a device behind a bridge
chain, if a bridge's secondary bus number changes while the chain of
device/function slots stays the same (both trees physically coherent, same
segment and root bus), then sbdf_to_path produces the very same path
string before and after the change — so in particular the two paths differ
in no field at all, and a fortiori at most in the affected hop's raw bus
field — and path_to_sbdf applied to the old path against the renumbered
tree returns the device's new live address. -/
theorem c2_path_stability (fs fs2 : Sysfs) (id id2 : PyStr) (m m2 : SbdfMatch)
    (addr addr2 : PCIAddr) (seg rootbus : Nat) (hops hops2 : List Hop)
    (hm : sbdfRegexMatch id = some m) (ha : matchAddr m = addr)
    (hm2 : sbdfRegexMatch id2 = some m2) (ha2 : matchAddr m2 = addr2)
    (hwf : ChainWF fs seg rootbus hops addr)
    (hwf2 : ChainWF fs2 seg rootbus hops2 addr2)
    (hslots : SameSlots hops hops2)
    (hstrict : StrictFrom hops) (hstrict2 : StrictFrom hops2)
    (hhead : HeadBus rootbus hops) (hhead2 : HeadBus rootbus hops2) :
    ∃ p, sbdf_to_path fs id = .ok (some p)
      ∧ sbdf_to_path fs2 id2 = .ok (some p)
      ∧ path_to_sbdf fs2 p = .ok (canonSbdf addr2) := by
  have henc : encParts 0 hops = encParts 0 hops2 := by
    apply encParts_eq_aux hops hops2 0 0 hslots hstrict hstrict2
    match hops, hops2, hslots, hhead, hhead2 with
    | [], [], _, _, _ => trivial
    | h :: t, h2 :: t2, _, hhead, hhead2 =>
      have e1 : h.bus = rootbus := by
        unfold HeadBus at hhead
        simpa using hhead
      have e2 : h2.bus = rootbus := by
        unfold HeadBus at hhead2
        simpa using hhead2
      show ((h.bus : Nat) : Int) - 0 = ((h2.bus : Nat) : Int) - 0
      rw [e1, e2]
  have hrender : renderPathStr seg hops = renderPathStr seg hops2 := by
    rw [renderPathStr, renderPathStr, henc]
  refine ⟨renderPathStr seg hops,
    sbdf_to_path_chain fs id m addr seg rootbus hops hm ha hwf, ?_, ?_⟩
  · rw [hrender]
    exact sbdf_to_path_chain fs2 id2 m2 addr2 seg rootbus hops2 hm2 ha2 hwf2
  · rw [hrender]
    exact path_to_sbdf_chain fs2 seg rootbus hops2 addr2 hwf2

/-- The renumbered variant of the C2 witness tree: the bridge 0000:00:03.0
now exposes secondary bus 5 and the device moved to 0000:05:00.0. -/
def c2fsOld : Sysfs :=
  ⟨[ "pci0000:00".data ],
   [ ("0000:02:00.0".data,
      "../../../devices/pci0000:00/0000:00:03.0/0000:02:00.0".data) ],
   [ ("0000:00:03.0".data, "2\n".data) ]⟩

/-- The same physical topology before renumbering, with secondary bus 2. -/
def c2fsNew : Sysfs :=
  ⟨[ "pci0000:00".data ],
   [ ("0000:05:00.0".data,
      "../../../devices/pci0000:00/0000:00:03.0/0000:05:00.0".data) ],
   [ ("0000:00:03.0".data, "5\n".data) ]⟩

/-- Witness for C2: renumbering secondary bus 2 to 5 keeps the encoded
path identical and the old path decodes to the new live address. -/
theorem c2_path_stability_witness :
    ∃ p, sbdf_to_path c2fsOld "02_00.0".data = .ok (some p)
      ∧ sbdf_to_path c2fsNew "05_00.0".data = .ok (some p)
      ∧ path_to_sbdf c2fsNew p = .ok (canonSbdf ⟨0, 5, 0, 0⟩) :=
  c2_path_stability c2fsOld c2fsNew "02_00.0".data "05_00.0".data
    ⟨none, ['0', '2'], ['0', '0'], ['0']⟩ ⟨none, ['0', '5'], ['0', '0'], ['0']⟩
    ⟨0, 2, 0, 0⟩ ⟨0, 5, 0, 0⟩ 0 0
    [⟨0, 3, 0, some 2⟩, ⟨2, 0, 0, none⟩] [⟨0, 3, 0, some 5⟩, ⟨5, 0, 0, none⟩]
    (by decide) (by decide) (by decide) (by decide) (by decide) (by decide)
    (by decide) (by decide) (by decide) (by decide) (by decide)

/-! ## Claim C6 -/

theorem encParts_append (l : List Hop) :
    ∀ (l2 : List Hop) (off : Int),
      encParts off (l ++ l2) = encParts off l ++ encParts (offAfter off l) l2 := by
  induction l with
  | nil => intro l2 off; simp [encParts, offAfter]
  | cons h t ih =>
    intro l2 off
    rw [List.cons_append,
      show encParts off (h :: (t ++ l2))
        = encPart off h :: encParts (secOff h) (t ++ l2) from rfl,
      ih l2 (secOff h),
      show encParts off (h :: t) = encPart off h :: encParts (secOff h) t from rfl,
      show offAfter off (h :: t) = offAfter (secOff h) t from rfl,
      List.cons_append]

theorem offAfter_concat (l : List Hop) :
    ∀ (a : Hop) (off : Int), offAfter off (l ++ [a]) = secOff a := by
  induction l with
  | nil => intro a off; rfl
  | cons h t ih => intro a off; exact ih a (secOff h)

theorem pathSbdfLoop_assert (fs : Sysfs) (p : PyStr) (ps : List PyStr)
    (s cur : PyStr) :
    pathSbdfLoop fs (p :: ps) s (-1) cur = .error .assertionError := by
  rw [pathSbdfLoop, if_pos rfl]

theorem path_to_sbdf_renderSplit (fs : Sysfs) (seg : Nat) (hops : List Hop)
    (hseg : seg < 65536) (hne : hops ≠ []) (hwf : ∀ h ∈ hops, HopWF h) :
    path_to_sbdf fs (renderPathStr seg hops)
      = pathSbdfLoop fs (encParts 0 hops) (hexPadRec 4 seg) 0 [] := by
  match hops, hne, hwf with
  | h1 :: t, _, hwf =>
    unfold path_to_sbdf
    rw [renderPathStr]
    by_cases hz : seg = 0
    · rw [if_pos hz, List.nil_append]
      rw [splitOnChar_pyJoin '-' (encParts 0 (h1 :: t))
        (encParts_ne_nil 0 (h1 :: t) (by simp))
        (fun p hp hc => (encParts_safe (h1 :: t) hwf 0 p hp '-' hc).1 rfl)]
      rw [show (['0', '0', '0', '0'] : PyStr) = hexPadRec 4 seg from by
        rw [hz]; exact hexPadRec_four_zero.symm]
    · rw [if_neg hz]
      rw [show encParts 0 (h1 :: t)
        = encPart 0 h1 :: encParts (secOff h1) t from rfl]
      have hsplit : splitOnChar '-'
          ((hexPadRec 4 seg ++ ['_'])
            ++ pyJoin ['-'] (encPart 0 h1 :: encParts (secOff h1) t))
          = ((hexPadRec 4 seg ++ ['_']) ++ encPart 0 h1)
            :: encParts (secOff h1) t := by
        have hj := splitOnChar_pyJoin '-' (encPart 0 h1 :: encParts (secOff h1) t)
          (by simp)
          (by
            intro p hp hc
            exact (encParts_safe (h1 :: t) hwf 0 p
              (by rw [show encParts 0 (h1 :: t)
                = encPart 0 h1 :: encParts (secOff h1) t from rfl]; exact hp)
              '-' hc).1 rfl)
        exact splitOnChar_append_left '-' (hexPadRec 4 seg ++ ['_'])
          (pyJoin ['-'] (encPart 0 h1 :: encParts (secOff h1) t))
          (by
            intro hcmem
            rcases List.mem_append.mp hcmem with hcm | hcm
            · obtain ⟨mm, hmm⟩ := Option.isSome_iff_exists.mp (hexPadRec_mem 4 seg _ hcm)
              exact (hexDigit_not_special _ _ hmm).2.1 rfl
            · simp at hcm)
          _ _ hj
      rw [hsplit]
      rw [show ((hexPadRec 4 seg ++ ['_']) ++ encPart 0 h1)
        = hexPadRec 4 seg ++ '_' :: encPart 0 h1 from by simp]
      rw [pathSbdfLoop_strip fs seg (encPart 0 h1) (encParts (secOff h1) t)
        ['0', '0', '0', '0'] []
        (by rw [encPart, hexPadRec_two]; exact matchSegmentRe_mid _ _ _)
        (by
          intro hcmem
          exact (mem_encPart_safe 0 h1 (hwf h1 (by simp)).2.2 '\n' hcmem).2 rfl)]

/-- C6 counterexample: the tree of the specification scenario with the
secondary_bus_number attribute of the bridge removed.  Decoding the
two-hop path 00_03.0-00_00.0 hits a first hop without a secondary bus
number while a further hop remains, and path_to_sbdf raises
AssertionError instead of stopping and returning the first hop's live
address 0000:00:03.0, refuting the claim that it does not fail. -/
def c6fs : Sysfs := ⟨[ "pci0000:00".data ], [], []⟩

/-- C6 counterexample theorem: at this concrete input the decoder fails
with AssertionError rather than returning the dead hop's address. -/
theorem c6_counterexample :
    path_to_sbdf c6fs "00_03.0-00_00.0".data = .error .assertionError
    ∧ path_to_sbdf c6fs "00_03.0-00_00.0".data ≠ .ok "0000:00:03.0".data := by
  constructor
  · decide
  · decide

/-- C6 (amended): if the live device at a hop of a topology path does not
report a secondary-bus number, then when that hop is the final one
path_to_sbdf returns its live address as the terminal device, but when
further hops remain path_to_sbdf raises AssertionError on the next
iteration rather than continuing (it does not silently resolve the
remaining hops and it does not return the dead hop's address). -/
theorem c6_terminal_hop (fs : Sysfs) (seg : Nat) (pre : List Hop) (hbad : Hop)
    (post : List Hop) (hseg : seg < 65536)
    (hwf : ∀ h ∈ pre ++ [hbad], HopWF h)
    (hok : chainOk 0 (pre ++ [hbad]))
    (hsec : ∀ h ∈ pre ++ [hbad], SecMatch fs (sbdfStr seg h.bus h.dev h.fn) h.sec)
    (hbadsec : hbad.sec = none) :
    path_to_sbdf fs (renderPathStr seg (pre ++ [hbad]))
      = .ok (sbdfStr seg hbad.bus hbad.dev hbad.fn)
    ∧ (∀ (hpost : post ≠ []) (hwfp : ∀ h ∈ post, HopWF h),
        path_to_sbdf fs (renderPathStr seg (pre ++ hbad :: post))
          = .error .assertionError) := by
  have hglast : (pre ++ [hbad]).getLast? = some hbad := by
    simp
  constructor
  · rw [path_to_sbdf_renderSplit fs seg (pre ++ [hbad]) hseg (by simp) hwf]
    rw [show encParts 0 (pre ++ [hbad]) = encParts 0 (pre ++ [hbad]) ++ [] from
      by simp]
    rw [pathSbdfLoop_chain fs seg (pre ++ [hbad]) 0 [] [] (by norm_num) hok hwf hsec]
    rw [getLastD_map_of_getLast? _ (pre ++ [hbad]) hbad hglast]
    rfl
  · intro hpost hwfp
    have hwfall : ∀ h ∈ pre ++ hbad :: post, HopWF h := by
      intro h hm
      rcases List.mem_append.mp hm with hm | hm
      · exact hwf h (List.mem_append.mpr (Or.inl hm))
      · rcases List.mem_cons.mp hm with rfl | hm
        · exact hwf h (List.mem_append.mpr (Or.inr (by simp)))
        · exact hwfp h hm
    rw [path_to_sbdf_renderSplit fs seg (pre ++ hbad :: post) hseg (by simp) hwfall]
    rw [show (pre ++ hbad :: post) = (pre ++ [hbad]) ++ post from by simp]
    rw [encParts_append (pre ++ [hbad]) post 0]
    rw [pathSbdfLoop_chain fs seg (pre ++ [hbad]) 0 []
      (encParts (offAfter 0 (pre ++ [hbad])) post) (by norm_num) hok hwf hsec]
    rw [offAfter_concat pre hbad 0, show secOff hbad = -1 from by
      simp [secOff, hbadsec]]
    match post, hpost with
    | p1 :: prest, _ =>
      rw [show encParts (-1) (p1 :: prest)
        = encPart (-1) p1 :: encParts (secOff p1) prest from rfl]
      exact pathSbdfLoop_assert fs _ _ _ _

/-- Witness tree for the amended C6: bridge 0000:00:03.0 exists but has no
secondary_bus_number attribute. -/
def c6wfs : Sysfs := ⟨[ "pci0000:00".data ], [], []⟩

/-- Witness for the amended C6 at a concrete tree and chain. -/
theorem c6_terminal_hop_witness :
    path_to_sbdf c6wfs (renderPathStr 0 ([] ++ [⟨3, 4, 5, none⟩]))
      = .ok (sbdfStr 0 3 4 5)
    ∧ (∀ (hpost : [(⟨2, 0, 0, none⟩ : Hop)] ≠ [])
        (hwfp : ∀ h ∈ [(⟨2, 0, 0, none⟩ : Hop)], HopWF h),
        path_to_sbdf c6wfs (renderPathStr 0 ([] ++ ⟨3, 4, 5, none⟩ :: [⟨2, 0, 0, none⟩]))
          = .error .assertionError) :=
  c6_terminal_hop c6wfs 0 [] ⟨3, 4, 5, none⟩ [⟨2, 0, 0, none⟩]
    (by decide) (by decide) (by decide) (by decide) (by decide)

/-! ## Claim C7 -/

/-- C7 counterexample tree: a host with root bus 0000:00. -/
def c7fs : Sysfs := ⟨[ "pci0000:00".data ], [], []⟩

/-- C7 counterexample: the flat legacy identifier 00_1f.3 (bus 00, device
1f, function 3) names a device directly on the root bus, and is_pci_path
classifies it as a topology path, returning true — refuting the claim that
is_pci_path returns false for every flat bb_dd.f identifier. -/
theorem c7_counterexample : is_pci_path c7fs "00_1f.3".data = true := by decide

/-- Every value hexDigitChar produces is a lowercase hex digit. -/
theorem hexDigitChar_isSome (n : Nat) :
    (hexValDigit? (hexDigitChar n)).isSome = true := by
  unfold hexDigitChar
  split <;> rfl

/-- The directory entries of /sys/devices for a list of root buses. -/
def renderRootsDir (roots : List (Nat × Nat)) : List PyStr :=
  roots.map (fun rb => 'p' :: 'c' :: 'i'
    :: (hexPadRec 4 rb.1 ++ ':' :: hexPadRec 2 rb.2))

/-- The flat legacy bb_dd.f identifier of an address on the default
segment. -/
def flatId (b d f : Nat) : PyStr :=
  hexPadRec 2 b ++ '_' :: hexPadRec 2 d ++ '.' :: [hexDigitChar f]

theorem rootBusesOf_render (roots : List (Nat × Nat)) (dl sb : List (PyStr × PyStr)) :
    rootBusesOf ⟨renderRootsDir roots, dl, sb⟩
      = roots.map (fun rb => hexPadRec 4 rb.1 ++ ':' :: hexPadRec 2 rb.2) := by
  induction roots with
  | nil => rfl
  | cons rb t ih =>
    show rootBusesOf ⟨renderRootsDir (rb :: t), dl, sb⟩ = _
    unfold rootBusesOf renderRootsDir at ih ⊢
    simp only [List.map_cons, List.filterMap_cons]
    rw [if_pos (by simp [List.isPrefixOf])]
    simp only [List.drop_succ_cons, List.drop_zero]
    rw [show List.filterMap
      (fun d => if ['p', 'c', 'i'].isPrefixOf d then some (d.drop 3) else none)
      (t.map (fun rb => 'p' :: 'c' :: 'i'
        :: (hexPadRec 4 rb.1 ++ ':' :: hexPadRec 2 rb.2))) = _ from ih]

theorem map_replaceColon_hexPadRec (w n : Nat) :
    (hexPadRec w n).map (fun c => if c = ':' then '_' else c) = hexPadRec w n := by
  have : ∀ c ∈ hexPadRec w n, (fun c => if c = ':' then '_' else c) c = id c := by
    intro c hc
    obtain ⟨m, hm⟩ := Option.isSome_iff_exists.mp (hexPadRec_mem w n c hc)
    simp [(hexDigit_not_special c m hm).2.2.1]
  rw [List.map_congr_left this, List.map_id]

theorem replace_render (s b : Nat) :
    (hexPadRec 4 s ++ ':' :: hexPadRec 2 b).map
      (fun c => if c = ':' then '_' else c)
      = hexPadRec 4 s ++ '_' :: hexPadRec 2 b := by
  rw [List.map_append, List.map_cons, map_replaceColon_hexPadRec,
    map_replaceColon_hexPadRec]
  rfl

theorem c7_alt_false (s rb b d f : Nat) (hs : s < 65536) (hrb : rb < 256)
    (hb : b < 256) (hne : ¬ (s = 0 ∧ rb = b)) :
    ((hexPadRec 4 s ++ '_' :: hexPadRec 2 rb).isPrefixOf
      ('0' :: '0' :: '0' :: '0' :: '_'
        :: (hexPadRec 2 b ++ '_' :: hexPadRec 2 d ++ '.' :: [hexDigitChar f])))
      = false := by
  rw [hexPadRec_four, hexPadRec_two rb, hexPadRec_two b, hexPadRec_two d]
  apply Bool.eq_false_iff.mpr
  intro htrue
  simp [List.isPrefixOf] at htrue
  obtain ⟨e1, e2, e3, e4, e5, e6⟩ := htrue
  refine hne ⟨?_, ?_⟩
  · apply (hexPadRec_four_eq_zero_iff s hs).mp
    rw [hexPadRec_four, e1, e2, e3, e4]
  · have heq : hexPadRec 2 rb = hexPadRec 2 b := by
      rw [hexPadRec_two, hexPadRec_two, e5, e6]
    have h1 := hexValL_hexPadRec 2 rb (by norm_num; omega)
    have h2 := hexValL_hexPadRec 2 b (by norm_num; omega)
    rw [heq] at h1
    omega

theorem pathStarLoop_join (hops : List Hop) :
    ∀ off, hops ≠ [] →
      pathStarLoop ('-' :: pyJoin ['-'] (encParts off hops)) = true := by
  induction hops with
  | nil => intro off h; exact absurd rfl h
  | cons h t ih =>
    intro off _
    match t, ih with
    | [], _ =>
      show pathStarLoop ('-' :: pyJoin ['-'] [encPart off h]) = true
      rw [show pyJoin ['-'] [encPart off h] = encPart off h from rfl]
      rw [encPart, hexPadRec_two, hexPadRec_two]
      simp [pathStarLoop, hv_isSome_mod, hexDigitChar_isSome]
    | t1 :: t2, ih =>
      show pathStarLoop ('-' :: pyJoin ['-']
        (encPart off h :: encParts (secOff h) (t1 :: t2))) = true
      rw [show pyJoin ['-'] (encPart off h :: encParts (secOff h) (t1 :: t2))
        = encPart off h ++ ['-'] ++ pyJoin ['-'] (encParts (secOff h) (t1 :: t2))
        from by
          rw [show encParts (secOff h) (t1 :: t2)
            = encPart (secOff h) t1 :: encParts (secOff t1) t2 from rfl]
          rfl]
      rw [encPart, hexPadRec_two, hexPadRec_two]
      rw [show (([hexDigitChar (((h.bus : Int) - off).toNat / 16 % 16),
          hexDigitChar (((h.bus : Int) - off).toNat % 16)]
          ++ '_' :: [hexDigitChar (h.dev / 16 % 16), hexDigitChar (h.dev % 16)]
          ++ '.' :: [hexDigitChar h.fn]) ++ ['-']
          ++ pyJoin ['-'] (encParts (secOff h) (t1 :: t2)))
        = hexDigitChar (((h.bus : Int) - off).toNat / 16 % 16)
          :: hexDigitChar (((h.bus : Int) - off).toNat % 16)
          :: '_' :: hexDigitChar (h.dev / 16 % 16) :: hexDigitChar (h.dev % 16)
          :: '.' :: hexDigitChar h.fn
          :: '-' :: pyJoin ['-'] (encParts (secOff h) (t1 :: t2)) from by simp]
      rw [show pathStarLoop ('-' :: hexDigitChar (((h.bus : Int) - off).toNat / 16 % 16)
          :: hexDigitChar (((h.bus : Int) - off).toNat % 16)
          :: '_' :: hexDigitChar (h.dev / 16 % 16) :: hexDigitChar (h.dev % 16)
          :: '.' :: hexDigitChar h.fn
          :: '-' :: pyJoin ['-'] (encParts (secOff h) (t1 :: t2)))
        = ((hexValDigit? (hexDigitChar (((h.bus : Int) - off).toNat / 16 % 16))).isSome
          && (hexValDigit? (hexDigitChar (((h.bus : Int) - off).toNat % 16))).isSome
          && (hexValDigit? (hexDigitChar (h.dev / 16 % 16))).isSome
          && (hexValDigit? (hexDigitChar (h.dev % 16))).isSome
          && (hexValDigit? (hexDigitChar h.fn)).isSome
          && pathStarLoop ('-' :: pyJoin ['-'] (encParts (secOff h) (t1 :: t2))))
          from rfl]
      rw [ih (secOff h) (by simp)]
      simp [hv_isSome_mod, hexDigitChar_isSome]

/-- C7 (amended): legacy-format detection up to the root-bus boundary
case.  is_pci_path returns false for every flat bb_dd.f identifier whose
bus is not a live root bus, and returns true for every multi-hop
dash-joined topology path rooted at a live root bus, including paths
carrying a non-default segment prefix.  (For a flat identifier whose bus
is itself a root bus the two grammars coincide — such an identifier is
also the single-hop path of the same device — and is_pci_path returns
true there, as the counterexample shows.) -/
theorem c7_legacy_detection :
    (∀ (roots : List (Nat × Nat)) (dl sb : List (PyStr × PyStr)) (b d f : Nat),
      (∀ rb ∈ roots, rb.1 < 65536 ∧ rb.2 < 256) →
      b < 256 →
      (∀ rb ∈ roots, ¬ (rb.1 = 0 ∧ rb.2 = b)) →
      is_pci_path ⟨renderRootsDir roots, dl, sb⟩ (flatId b d f) = false)
    ∧ (∀ (fs : Sysfs) (seg rootbus : Nat) (hops : List Hop),
      seg < 65536 → rootbus < 256 →
      ('p' :: 'c' :: 'i' :: (hexPadRec 4 seg ++ ':' :: hexPadRec 2 rootbus))
        ∈ fs.devicesDir →
      2 ≤ hops.length →
      HeadBus rootbus hops →
      is_pci_path fs (renderPathStr seg hops) = true) := by
  constructor
  · intro roots dl sb b d f hbounds hb hne
    simp only [is_pci_path]
    rw [rootBusesOf_render]
    have hcond : (flatId b d f).length > 2 ∧ (flatId b d f).get? 2 = some '_' := by
      rw [flatId, hexPadRec_two]
      exact ⟨by simp, rfl⟩
    rw [if_pos hcond]
    by_cases hroots : roots = []
    · subst hroots
      simp only [List.map_nil]
      rw [if_pos trivial]
      rw [show flatId b d f
        = hexPadRec 2 b ++ '_' :: hexPadRec 2 d ++ '.' :: [hexDigitChar f] from rfl,
        hexPadRec_two b]
      rfl
    · rw [if_neg (by
        intro h0
        exact hroots (by simpa using congrArg List.length h0))]
      apply List.any_eq_false.mpr
      intro r hr
      obtain ⟨r0, hr0, hrep⟩ := List.mem_map.mp hr
      obtain ⟨rb, hrb, hrend⟩ := List.mem_map.mp hr0
      subst hrep
      subst hrend
      rw [replace_render rb.1 rb.2]
      rw [show flatId b d f
        = hexPadRec 2 b ++ '_' :: hexPadRec 2 d ++ '.' :: [hexDigitChar f] from rfl]
      rw [c7_alt_false rb.1 rb.2 b d f (hbounds rb hrb).1 (hbounds rb hrb).2 hb
        (hne rb hrb)]
      simp
  · intro fs seg rootbus hops hseg hrb hmem hlen hhead
    match hops, hlen, hhead with
    | h1 :: h2 :: t, _, hhead =>
      have hb1 : h1.bus = rootbus := by
        unfold HeadBus at hhead
        simpa using hhead
      have halt : (hexPadRec 4 seg ++ '_' :: hexPadRec 2 rootbus)
          ∈ (rootBusesOf fs).map (List.map (fun c => if c = ':' then '_' else c)) := by
        apply List.mem_map.mpr
        refine ⟨hexPadRec 4 seg ++ ':' :: hexPadRec 2 rootbus, ?_, replace_render seg rootbus⟩
        unfold rootBusesOf
        apply List.mem_filterMap.mpr
        refine ⟨'p' :: 'c' :: 'i' :: (hexPadRec 4 seg ++ ':' :: hexPadRec 2 rootbus),
          hmem, ?_⟩
        rw [if_pos (by simp [List.isPrefixOf])]
        rfl
      have hmapne : (rootBusesOf fs).map
          (List.map (fun c => if c = ':' then '_' else c)) ≠ [] := by
        intro h0
        rw [h0] at halt
        simp at halt
      simp only [is_pci_path]
      rw [if_neg hmapne]
      apply List.any_eq_true.mpr
      refine ⟨hexPadRec 4 seg ++ '_' :: hexPadRec 2 rootbus, halt, ?_⟩
      have hjoin : pyJoin ['-'] (encParts 0 (h1 :: h2 :: t))
          = encPart 0 h1 ++ '-' :: pyJoin ['-'] (encParts (secOff h1) (h2 :: t)) := by
        rw [show encParts 0 (h1 :: h2 :: t)
          = encPart 0 h1 :: encParts (secOff h1) (h2 :: t) from rfl]
        rw [show encParts (secOff h1) (h2 :: t)
          = encPart (secOff h1) h2 :: encParts (secOff h2) t from rfl]
        rfl
      by_cases hz : seg = 0
      · subst hz
        have hdev : renderPathStr 0 (h1 :: h2 :: t)
            = hexPadRec 2 rootbus
              ++ '_' :: hexDigitChar (h1.dev / 16 % 16) :: hexDigitChar (h1.dev % 16)
              :: '.' :: hexDigitChar h1.fn
              :: '-' :: pyJoin ['-'] (encParts (secOff h1) (h2 :: t)) := by
          rw [renderPathStr, if_pos rfl, List.nil_append, hjoin, encPart,
            show (((h1.bus : Nat) : Int) - 0).toNat = rootbus from by omega,
            hexPadRec_two h1.dev]
          simp
        rw [hdev]
        have hcond : (hexPadRec 2 rootbus
            ++ '_' :: hexDigitChar (h1.dev / 16 % 16) :: hexDigitChar (h1.dev % 16)
              :: '.' :: hexDigitChar h1.fn
              :: '-' :: pyJoin ['-'] (encParts (secOff h1) (h2 :: t))).length > 2
            ∧ (hexPadRec 2 rootbus
            ++ '_' :: hexDigitChar (h1.dev / 16 % 16) :: hexDigitChar (h1.dev % 16)
              :: '.' :: hexDigitChar h1.fn
              :: '-' :: pyJoin ['-'] (encParts (secOff h1) (h2 :: t))).get? 2
            = some '_' := by
          rw [hexPadRec_two]
          exact ⟨by simp, rfl⟩
        rw [if_pos hcond]
        have hsplit : '0' :: '0' :: '0' :: '0' :: '_' :: (hexPadRec 2 rootbus
            ++ '_' :: hexDigitChar (h1.dev / 16 % 16) :: hexDigitChar (h1.dev % 16)
              :: '.' :: hexDigitChar h1.fn
              :: '-' :: pyJoin ['-'] (encParts (secOff h1) (h2 :: t)))
            = (hexPadRec 4 0 ++ '_' :: hexPadRec 2 rootbus)
              ++ '_' :: hexDigitChar (h1.dev / 16 % 16) :: hexDigitChar (h1.dev % 16)
              :: '.' :: hexDigitChar h1.fn
              :: '-' :: pyJoin ['-'] (encParts (secOff h1) (h2 :: t)) := by
          rw [hexPadRec_four_zero]
          simp
        rw [hsplit, isPrefixOf_append_self, List.drop_left]
        simp [pathAfterRoot, hexDigitChar_isSome, hv_isSome_mod,
          pathStarLoop_join (h2 :: t) (secOff h1) (by simp)]
      · have hdev : renderPathStr seg (h1 :: h2 :: t)
            = hexPadRec 4 seg ++ '_' :: (hexPadRec 2 rootbus
              ++ '_' :: hexDigitChar (h1.dev / 16 % 16) :: hexDigitChar (h1.dev % 16)
              :: '.' :: hexDigitChar h1.fn
              :: '-' :: pyJoin ['-'] (encParts (secOff h1) (h2 :: t))) := by
          rw [renderPathStr, if_neg hz, hjoin, encPart,
            show (((h1.bus : Nat) : Int) - 0).toNat = rootbus from by omega,
            hexPadRec_two h1.dev]
          simp
        rw [hdev]
        have hget2 : (hexPadRec 4 seg ++ '_' :: (hexPadRec 2 rootbus
            ++ '_' :: hexDigitChar (h1.dev / 16 % 16) :: hexDigitChar (h1.dev % 16)
              :: '.' :: hexDigitChar h1.fn
              :: '-' :: pyJoin ['-'] (encParts (secOff h1) (h2 :: t)))).get? 2
            = some (hexDigitChar (seg / 16 % 16)) := by
          rw [hexPadRec_four]
          rfl
        rw [if_neg (by
          intro hc
          rw [hget2] at hc
          exact (digit_mod_props (seg / 16)).2.2.2.2.1 (Option.some.inj hc.2))]
        have hsplit : hexPadRec 4 seg ++ '_' :: (hexPadRec 2 rootbus
            ++ '_' :: hexDigitChar (h1.dev / 16 % 16) :: hexDigitChar (h1.dev % 16)
              :: '.' :: hexDigitChar h1.fn
              :: '-' :: pyJoin ['-'] (encParts (secOff h1) (h2 :: t)))
            = (hexPadRec 4 seg ++ '_' :: hexPadRec 2 rootbus)
              ++ '_' :: hexDigitChar (h1.dev / 16 % 16) :: hexDigitChar (h1.dev % 16)
              :: '.' :: hexDigitChar h1.fn
              :: '-' :: pyJoin ['-'] (encParts (secOff h1) (h2 :: t)) := by
          simp
        rw [hsplit, isPrefixOf_append_self, List.drop_left]
        simp [pathAfterRoot, hexDigitChar_isSome, hv_isSome_mod,
          pathStarLoop_join (h2 :: t) (secOff h1) (by simp)]

theorem c7_legacy_detection_witness :
    is_pci_path ⟨renderRootsDir [(0, 0)], [], []⟩ (flatId 5 0 0) = false
    ∧ is_pci_path ⟨renderRootsDir [(0, 0)], [], []⟩
        (renderPathStr 0 [⟨0, 3, 0, some 2⟩, ⟨2, 0, 0, none⟩]) = true :=
  ⟨c7_legacy_detection.1 [(0, 0)] [] [] 5 0 0 (by decide) (by decide) (by decide),
   c7_legacy_detection.2 ⟨renderRootsDir [(0, 0)], [], []⟩ 0 0
     [⟨0, 3, 0, some 2⟩, ⟨2, 0, 0, none⟩]
     (by decide) (by decide) (by decide) (by decide) (by decide)⟩

/-! ## Claim C3 -/

/-- C3: the claim promises that a missing /usr/share/hwdata/pci.ids makes
pcidev_class return "unknown" with no escaping exception, but the
try/except OSError of the source covers only the sysfs class-attribute
read; with the module-global class dict still empty, pcidev_class calls
load_pci_classes, whose open() raises FileNotFoundError that no handler
catches, for every class attribute value read from sysfs. -/
theorem c3_missing_class_db (raw : PyStr) :
    pcidev_class none ⟨some raw, none⟩ = .error .fileNotFoundError := rfl

/-! ## Claim C4 -/

/-- Reduction of the pre-attach handler once all four validation guards
pass. -/
theorem attach_guard_reduce (env : AttachEnv) (h1 : env.device_exists = true)
    (h2 : env.is_adminvm = false) (h3 : env.virt_mode ≠ "pvh")
    (h4 : env.is_running = true) :
    on_device_pre_attached_pci env
      = match bind_pci_to_pciback env.bind with
        | (.error .calledProcessError, bacts) => ⟨.ok (), bacts, [ attachFailLog ]⟩
        | (.error e, bacts) => ⟨.error e, bacts, []⟩
        | (.ok _, bacts) =>
          match env.attach_result with
          | .ok _ => ⟨.ok (), bacts ++ [ .attachDevice ], []⟩
          | .error .calledProcessError =>
            ⟨.ok (), bacts ++ [ .attachDevice ], [ attachFailLog ]⟩
          | .error e => ⟨.error e, bacts ++ [ .attachDevice ], []⟩ := by
  unfold on_device_pre_attached_pci
  rw [h1, h2, h4, if_neg h3]
  simp

/-- C4 (amended): asymmetric and exception-specific failure handling.  In
the pre-attach handler (all guards passed), a CalledProcessError from the
pciback binding or from the hypervisor attach call is logged and
swallowed, but a libvirt error from either step propagates to the caller
with nothing logged; in the pre-detach handler on a running guest with a
matched device, both a CalledProcessError and a libvirt error from the
guest-side detach helper or from the hypervisor detach call are logged and
re-raised. -/
theorem c4_failure_asymmetry :
    (∀ env : AttachEnv, env.device_exists = true → env.is_adminvm = false →
      env.virt_mode ≠ "pvh" → env.is_running = true →
      ((bind_pci_to_pciback env.bind).1 = .error .calledProcessError →
        (on_device_pre_attached_pci env).result = .ok ()
        ∧ (on_device_pre_attached_pci env).logs = [ attachFailLog ])
      ∧ (∀ c, (bind_pci_to_pciback env.bind).1 = .error (.libvirtError c) →
        (on_device_pre_attached_pci env).result = .error (.libvirtError c)
        ∧ (on_device_pre_attached_pci env).logs = [])
      ∧ ((bind_pci_to_pciback env.bind).1 = .ok () →
        env.attach_result = .error .calledProcessError →
        (on_device_pre_attached_pci env).result = .ok ()
        ∧ (on_device_pre_attached_pci env).logs = [ attachFailLog ])
      ∧ (∀ c, (bind_pci_to_pciback env.bind).1 = .ok () →
        env.attach_result = .error (.libvirtError c) →
        (on_device_pre_attached_pci env).result = .error (.libvirtError c)
        ∧ (on_device_pre_attached_pci env).logs = []))
    ∧ (∀ env : DetachEnv, env.is_running = true → env.xl_match ≠ none →
      ((env.run_service_result = .error .calledProcessError →
        (on_device_pre_detached_pci env).result = .error .calledProcessError
        ∧ (on_device_pre_detached_pci env).logs = [ detachFailLog ])
      ∧ (∀ c, env.run_service_result = .error (.libvirtError c) →
        (on_device_pre_detached_pci env).result = .error (.libvirtError c)
        ∧ (on_device_pre_detached_pci env).logs = [ detachFailLog ])
      ∧ (env.run_service_result = .ok () →
        env.detach_result = .error .calledProcessError →
        (on_device_pre_detached_pci env).result = .error .calledProcessError
        ∧ (on_device_pre_detached_pci env).logs = [ detachFailLog ])
      ∧ (∀ c, env.run_service_result = .ok () →
        env.detach_result = .error (.libvirtError c) →
        (on_device_pre_detached_pci env).result = .error (.libvirtError c)
        ∧ (on_device_pre_detached_pci env).logs = [ detachFailLog ]))) := by
  constructor
  · intro env h1 h2 h3 h4
    rw [attach_guard_reduce env h1 h2 h3 h4]
    rcases hb : bind_pci_to_pciback env.bind with ⟨r, acts⟩
    refine ⟨?_, ?_, ?_, ?_⟩
    · intro hcpe
      simp only at hcpe
      subst hcpe
      exact ⟨rfl, rfl⟩
    · intro c hlv
      simp only at hlv
      subst hlv
      exact ⟨rfl, rfl⟩
    · intro hok ha
      simp only at hok
      subst hok
      rw [ha]
      exact ⟨rfl, rfl⟩
    · intro c hok ha
      simp only at hok
      subst hok
      rw [ha]
      exact ⟨rfl, rfl⟩
  · intro env h1 h2
    have hred : on_device_pre_detached_pci env
        = match env.xl_match with
          | none => ⟨.ok (), [ .xlPciList ], [ alreadyDetachedLog ]⟩
          | some _ =>
            match env.run_service_result with
            | .error .calledProcessError =>
              ⟨.error .calledProcessError, [ .xlPciList, .runDetachService ],
                [ detachFailLog ]⟩
            | .error (.libvirtError c) =>
              ⟨.error (.libvirtError c), [ .xlPciList, .runDetachService ],
                [ detachFailLog ]⟩
            | .error e => ⟨.error e, [ .xlPciList, .runDetachService ], []⟩
            | .ok _ =>
              match env.detach_result with
              | .ok _ => ⟨.ok (), [ .xlPciList, .runDetachService, .detachDevice ], []⟩
              | .error .calledProcessError =>
                ⟨.error .calledProcessError,
                  [ .xlPciList, .runDetachService, .detachDevice ], [ detachFailLog ]⟩
              | .error (.libvirtError c) =>
                ⟨.error (.libvirtError c),
                  [ .xlPciList, .runDetachService, .detachDevice ], [ detachFailLog ]⟩
              | .error e =>
                ⟨.error e, [ .xlPciList, .runDetachService, .detachDevice ], []⟩ := by
      unfold on_device_pre_detached_pci
      rw [h1]
      simp
    rw [hred]
    rcases hx : env.xl_match with _ | s
    · exact absurd hx h2
    · refine ⟨?_, ?_, ?_, ?_⟩
      · intro hcpe
        rw [hcpe]
        exact ⟨rfl, rfl⟩
      · intro c hlv
        rw [hlv]
        exact ⟨rfl, rfl⟩
      · intro hok hd
        rw [hok, hd]
        exact ⟨rfl, rfl⟩
      · intro c hok hd
        rw [hok, hd]
        exact ⟨rfl, rfl⟩

/-- C4 counterexample to the claim as written: a libvirt error from the
hypervisor attach call (all guards passed, binding succeeded) propagates
to the caller and nothing is logged, so not every live-attach failure is
logged-and-swallowed. -/
theorem c4_counterexample :
    on_device_pre_attached_pci
      ⟨true, false, "hvm", true, ⟨.ok (), .ok ()⟩, .error (.libvirtError .otherCode)⟩
      = ⟨.error (.libvirtError .otherCode),
          [ .lookupNode, .dettachNode, .attachDevice ], []⟩ := rfl

theorem c4_failure_asymmetry_witness :
    ((on_device_pre_attached_pci
        ⟨true, false, "hvm", true, ⟨.error .calledProcessError, .ok ()⟩, .ok ()⟩).result
      = .ok ()
    ∧ (on_device_pre_attached_pci
        ⟨true, false, "hvm", true, ⟨.error .calledProcessError, .ok ()⟩, .ok ()⟩).logs
      = [ attachFailLog ])
    ∧ ((on_device_pre_detached_pci
        ⟨true, some "0000:00:05.0", .error .calledProcessError, .ok ()⟩).result
      = .error .calledProcessError
    ∧ (on_device_pre_detached_pci
        ⟨true, some "0000:00:05.0", .error .calledProcessError, .ok ()⟩).logs
      = [ detachFailLog ]) :=
  ⟨(c4_failure_asymmetry.1
      ⟨true, false, "hvm", true, ⟨.error .calledProcessError, .ok ()⟩, .ok ()⟩
      rfl rfl (by decide) rfl).1 rfl,
   (c4_failure_asymmetry.2
      ⟨true, some "0000:00:05.0", .error .calledProcessError, .ok ()⟩
      rfl (by simp)).1 rfl⟩

/-! ## Claim C5 -/

/-- C5: ordered, atomic pre-attach validation.  A missing device raises a
QubesException with no external call performed; with the device present, a
dom0 target raises likewise; next a pvh-mode target raises likewise; and
with all three checks passed, a non-running guest makes the handler return
normally, still with no external call. -/
theorem c5_validation_guards (env : AttachEnv) :
    (env.device_exists = false →
      on_device_pre_attached_pci env = ⟨.error .qubesException, [], []⟩)
    ∧ (env.device_exists = true → env.is_adminvm = true →
      on_device_pre_attached_pci env = ⟨.error .qubesException, [], []⟩)
    ∧ (env.device_exists = true → env.is_adminvm = false → env.virt_mode = "pvh" →
      on_device_pre_attached_pci env = ⟨.error .qubesException, [], []⟩)
    ∧ (env.device_exists = true → env.is_adminvm = false → env.virt_mode ≠ "pvh" →
      env.is_running = false →
      on_device_pre_attached_pci env = ⟨.ok (), [], []⟩) := by
  refine ⟨?_, ?_, ?_, ?_⟩
  · intro h1
    unfold on_device_pre_attached_pci
    rw [h1]
    simp
  · intro h1 h2
    unfold on_device_pre_attached_pci
    rw [h1, h2]
    simp
  · intro h1 h2 h3
    unfold on_device_pre_attached_pci
    rw [h1, h2, if_pos h3]
    simp
  · intro h1 h2 h3 h4
    unfold on_device_pre_attached_pci
    rw [h1, h2, if_neg h3, h4]
    simp

theorem c5_validation_guards_witness :
    on_device_pre_attached_pci ⟨false, false, "hvm", true, ⟨.ok (), .ok ()⟩, .ok ()⟩
      = ⟨.error .qubesException, [], []⟩
    ∧ on_device_pre_attached_pci ⟨true, false, "hvm", false, ⟨.ok (), .ok ()⟩, .ok ()⟩
      = ⟨.ok (), [], []⟩ :=
  ⟨(c5_validation_guards ⟨false, false, "hvm", true, ⟨.ok (), .ok ()⟩, .ok ()⟩).1 rfl,
   (c5_validation_guards ⟨true, false, "hvm", false, ⟨.ok (), .ok ()⟩, .ok ()⟩).2.2.2
     rfl rfl (by decide) rfl⟩

/-! ## Claim C8 -/

/-- C8: sentinel metadata is never cached.  When the backend domain is not
running, _load_desc returns the all-unknown defaults and the cached fields
are returned unchanged; and whenever _load_desc succeeds on a running
domain, the returned dict carries the queried values and all four cache
fields are written with them. -/
theorem c8_sentinel_not_cached (st : PCIDeviceState) (env : LoadEnv) :
    (env.is_running = false → _load_desc st env = .ok (defaultDesc, st))
    ∧ (∀ d st2, env.is_running = true → _load_desc st env = .ok (d, st2) →
      ∃ x, env.nodeDevice = some x
        ∧ d = ⟨x.vendor, x.vendorId, x.product, x.productId,
            "unknown", "unknown", "unknown"⟩
        ∧ st2 = ⟨some x.vendor, some x.vendorId, some x.product, some x.productId⟩) := by
  constructor
  · intro h
    unfold _load_desc
    rw [h]
    simp
  · intro d st2 hr hload
    unfold _load_desc at hload
    rw [hr] at hload
    simp only [Bool.true_eq_false, if_false] at hload
    rcases hnd : env.nodeDevice with _ | x
    · rw [hnd] at hload
      exact absurd hload (by simp)
    · rw [hnd] at hload
      refine ⟨x, rfl, ?_, ?_⟩
      · have := congrArg (fun r => match r with
          | Except.ok p => p.1 | Except.error _ => d) hload
        simpa [defaultDesc] using this.symm
      · have := congrArg (fun r => match r with
          | Except.ok p => p.2 | Except.error _ => st2) hload
        simpa using this.symm

theorem c8_sentinel_not_cached_witness :
    _load_desc ⟨none, none, none, none⟩ ⟨false, none⟩
      = .ok (defaultDesc, ⟨none, none, none, none⟩) :=
  (c8_sentinel_not_cached ⟨none, none, none, none⟩ ⟨false, none⟩).1 rfl

/-! ## Claim C9 -/

/-- C9: idempotent detach of an absent device.  On a running guest whose xl
pci-list output contains no line for the host address, the pre-detach
handler logs already-detached and returns normally, with neither the
guest-side detach helper nor the hypervisor detach call issued. -/
theorem c9_idempotent_detach (env : DetachEnv) (h1 : env.is_running = true)
    (h2 : env.xl_match = none) :
    on_device_pre_detached_pci env = ⟨.ok (), [ .xlPciList ], [ alreadyDetachedLog ]⟩ := by
  unfold on_device_pre_detached_pci
  rw [h1, h2]
  simp

theorem c9_idempotent_detach_witness :
    on_device_pre_detached_pci ⟨true, none, .ok (), .ok ()⟩
      = ⟨.ok (), [ .xlPciList ], [ alreadyDetachedLog ]⟩ :=
  c9_idempotent_detach ⟨true, none, .ok (), .ok ()⟩ rfl rfl

/-! ## Claim C10 -/

/-- C10: absent device falls back to the legacy port id.  For a
well-formed non-root-bus identifier whose sysfs device link is absent,
sbdf_to_path returns none without raising, and the load_extras migration
keeps the original flat identifier as the port id. -/
theorem c10_migration_fallback (fs : Sysfs) (port_id : PyStr) (m : SbdfMatch)
    (hm : sbdfRegexMatch port_id = some m)
    (hroot : (m.segment.getD ['0', '0', '0', '0'] ++ ':' :: m.bus) ∉ rootBusesOf fs)
    (hlink : alookup (m.segment.getD ['0', '0', '0', '0'] ++ ':' :: m.bus
      ++ ':' :: m.device ++ '.' :: m.function) fs.devLinks = none)
    (hstar : port_id ≠ "*".data)
    (hflat : is_pci_path fs port_id = false) :
    sbdf_to_path fs port_id = .ok none
    ∧ migrate_port_id fs "pci".data port_id = .ok port_id := by
  have hs : sbdf_to_path fs port_id = .ok none := by
    simp only [sbdf_to_path, hm]
    rw [if_neg hroot, hlink]
  refine ⟨hs, ?_⟩
  unfold migrate_port_id
  rw [if_pos ⟨rfl, hstar, hflat⟩, hs]

theorem c10_migration_fallback_witness :
    sbdf_to_path ⟨["pci0000:00".data], [], []⟩ "05_00.0".data = .ok none
    ∧ migrate_port_id ⟨["pci0000:00".data], [], []⟩ "pci".data "05_00.0".data
      = .ok "05_00.0".data :=
  c10_migration_fallback ⟨["pci0000:00".data], [], []⟩ "05_00.0".data
    ⟨none, ['0', '5'], ['0', '0'], ['0']⟩ rfl (by decide) rfl (by decide) (by decide)
